import Mathlib

/-!
# le5le-com/uuid : UUID version 7 codec

A shallow embedding of `uuid.go` (package `uuid`) and of the parts of the Go
standard library it calls (`encoding/hex`, `encoding/binary`, `time`, `io`),
followed by theorems about `NewV7`, `Parse`, `UUIDV7FromObjectID`,
`UUID.String`, `UUID.ShortString`, `UUID.TimeFromV7`, `UUID.ObjectID` and
`UUID.ObjectIDHex`.

Conventions of the embedding

* a Go `byte` is a `Fin 256`; a Go `string` and a Go `[]byte` are a
  `List Byte` (Go strings are byte sequences, `len` counts bytes);
* `uint32`, `uint64` are `Nat` with an explicit `% 2 ^ w`; `int64` is `Int`,
  and the bit pattern of an `int64` is `toU64`;
* the two inputs `NewV7` takes from its environment, the clock and the random
  source, are explicit arguments;
* a function that can panic at run time returns an `Exec`.
-/

namespace GoUuid

set_option maxRecDepth 100000

/-! ## Bytes, strings, slices -/

/-- A Go `byte` (`uint8`). -/
abbrev Byte := Fin 256

/-- Go conversion `byte(n)` of an unsigned integer: the low eight bits. -/
def toByte (n : Nat) : Byte := ⟨n % 256, Nat.mod_lt n (by decide)⟩

/-- Bit pattern of an `int64` read as a `uint64` (Go conversion `uint64(x)`). -/
def toU64 (x : Int) : Nat := (x % 2 ^ 64).toNat

/-- Bit pattern of a `uint64` read as an `int64` (Go conversion `int64(v)`). -/
def toI64 (v : Nat) : Int :=
  if v % 2 ^ 64 < 2 ^ 63 then ((v % 2 ^ 64 : Nat) : Int) else ((v % 2 ^ 64 : Nat) : Int) - 2 ^ 64

/-- Go conversion `uint32(x)` of an `int64`: the low 32 bits. -/
def toU32 (x : Int) : Nat := (x % 2 ^ 32).toNat

/-- Go slice expression `l[lo:hi]`. -/
def slice (l : List Byte) (lo hi : Nat) : List Byte := (l.drop lo).take (hi - lo)

/-- Go index expression `l[i]` at an index that is in range. -/
def at_ (l : List Byte) (i : Nat) : Byte := l.getD i 0

/-- Successive element stores `buf[off] = src[0]`, `buf[off+1] = src[1]`, ...; the
effect on `buf` of a callee that fills the slice `buf[off:]` with `src`. -/
def writeAt : List Byte → Nat → List Byte → List Byte
  | buf, _, [] => buf
  | buf, off, b :: bs => writeAt (buf.set off b) (off + 1) bs

/-- UTF-8 encoding of one Unicode code point, as Go stores it in a string. -/
def encodeRune (c : Nat) : List Byte :=
  if c < 0x80 then [toByte c]
  else if c < 0x800 then [toByte (0xC0 ||| (c >>> 6)), toByte (0x80 ||| (c &&& 0x3F))]
  else if c < 0x10000 then
    [toByte (0xE0 ||| (c >>> 12)), toByte (0x80 ||| ((c >>> 6) &&& 0x3F)),
     toByte (0x80 ||| (c &&& 0x3F))]
  else
    [toByte (0xF0 ||| (c >>> 18)), toByte (0x80 ||| ((c >>> 12) &&& 0x3F)),
     toByte (0x80 ||| ((c >>> 6) &&& 0x3F)), toByte (0x80 ||| (c &&& 0x3F))]

/-- The bytes of the Go string holding the text `s` (Go strings are UTF-8):
`[]byte(s)`; its length is Go's `len(s)`. -/
def goBytes (s : String) : List Byte := s.toList.flatMap (fun c => encodeRune c.toNat)

/-! ## Errors and panics -/

/-- The error values the package returns. -/
inductive Error where
  /-- The value of `errors.New(InvalidFormat)`, message "Invalid uuid format". -/
  | InvalidFormat
  /-- The value of `hex.InvalidByteError(b)`. -/
  | InvalidByteError (b : Byte)
  /-- The value of `hex.ErrLength`. -/
  | ErrLength
  /-- An error reported by the random source (`io.EOF`, `io.ErrUnexpectedEOF`, ...). -/
  | ReadError (code : Nat)
  deriving DecidableEq

/-- Outcome of a call: it returns a value, or the Go run time panics (index or
slice bounds out of range). -/
inductive Exec (α : Type) where
  | returns (v : α)
  | panics
  deriving DecidableEq

/-! ## encoding/hex -/

/-- The constant `hextable = "0123456789abcdef"` of `encoding/hex`. -/
def hex.hextable : List Byte :=
  [0x30, 0x31, 0x32, 0x33, 0x34, 0x35, 0x36, 0x37, 0x38, 0x39, 0x61, 0x62, 0x63, 0x64, 0x65, 0x66]

/-- Value of one hexadecimal digit, `none` for any other byte
(`fromHexChar`, equivalently a lookup in `reverseHexTable`). -/
def hex.fromHexChar (c : Byte) : Option Byte :=
  if 0x30 ≤ c ∧ c ≤ 0x39 then some (c - 0x30)
  else if 0x61 ≤ c ∧ c ≤ 0x66 then some (c - 0x61 + 10)
  else if 0x41 ≤ c ∧ c ≤ 0x46 then some (c - 0x41 + 10)
  else none

/-- The model of `hex.Decode(dst, src)`: the bytes stored into `dst[0:n]` and the
error. The loop reads `src` two bytes at a time, stops at the first byte that
is not a hexadecimal digit, and reports `ErrLength` for a trailing single
digit. -/
def hex.Decode : List Byte → List Byte × Option Error
  | [] => ([], none)
  | [p] =>
    match hex.fromHexChar p with
    | none => ([], some (Error.InvalidByteError p))
    | some _ => ([], some Error.ErrLength)
  | p :: q :: rest =>
    match hex.fromHexChar p, hex.fromHexChar q with
    | none, _ => ([], some (Error.InvalidByteError p))
    | some _, none => ([], some (Error.InvalidByteError q))
    | some a, some b =>
      (((a <<< 4) ||| b) :: (hex.Decode rest).1, (hex.Decode rest).2)

/-- The model of `hex.DecodeString(s)`: the decoded prefix `dst[:n]` and the error. -/
def hex.DecodeString (s : List Byte) : List Byte × Option Error := hex.Decode s

/-- The model of `hex.Encode(dst, src)`: the `2 * len(src)` bytes stored into `dst`. -/
def hex.Encode (src : List Byte) : List Byte :=
  src.flatMap (fun v => [at_ hex.hextable (v >>> 4).val, at_ hex.hextable (v &&& 0x0f).val])

/-- The model of `hex.EncodeToString(src)`. -/
def hex.EncodeToString (src : List Byte) : List Byte := hex.Encode src

/-! ## encoding/binary -/

/-- The model of `binary.BigEndian.PutUint64(b, v)`: the eight bytes stored into `b[0:8]`. -/
def BigEndian.PutUint64 (v : Nat) : List Byte :=
  [toByte (v >>> 56), toByte (v >>> 48), toByte (v >>> 40), toByte (v >>> 32),
   toByte (v >>> 24), toByte (v >>> 16), toByte (v >>> 8), toByte v]

/-- The model of `binary.BigEndian.Uint64(b)`. -/
def BigEndian.Uint64 (b : List Byte) : Nat :=
  (at_ b 7).val ||| ((at_ b 6).val <<< 8) ||| ((at_ b 5).val <<< 16) ||| ((at_ b 4).val <<< 24) |||
    ((at_ b 3).val <<< 32) ||| ((at_ b 2).val <<< 40) ||| ((at_ b 1).val <<< 48) |||
    ((at_ b 0).val <<< 56)

/-- The model of `binary.BigEndian.PutUint32(b, v)`: the four bytes stored into `b[0:4]`. -/
def BigEndian.PutUint32 (v : Nat) : List Byte :=
  [toByte (v >>> 24), toByte (v >>> 16), toByte (v >>> 8), toByte v]

/-- The model of `binary.BigEndian.Uint32(b)`. -/
def BigEndian.Uint32 (b : List Byte) : Nat :=
  (at_ b 3).val ||| ((at_ b 2).val <<< 8) ||| ((at_ b 1).val <<< 16) ||| ((at_ b 0).val <<< 24)

/-! ## time -/

/-- An instant (`time.Time`): whole seconds since the Unix epoch and the
nanoseconds within that second. -/
structure Time where
  sec : Int
  nsec : Int
  deriving DecidableEq

/-- The model of `time.Unix(sec, nsec)`, with its normalisation of `nsec` into
`[0, 1e9)`; Go's `/` on integers truncates toward zero. -/
def time.Unix (sec nsec : Int) : Time :=
  if nsec < 0 ∨ nsec ≥ 1000000000 then
    let n := nsec.tdiv 1000000000
    let sec1 := sec + n
    let nsec1 := nsec - n * 1000000000
    if nsec1 < 0 then ⟨sec1 - 1, nsec1 + 1000000000⟩ else ⟨sec1, nsec1⟩
  else ⟨sec, nsec⟩

/-- The model of `Time.Unix()`: seconds since the epoch. -/
def Time.Unix (t : Time) : Int := t.sec

/-- The model of `Time.UnixMilli()`: milliseconds since the epoch. -/
def Time.UnixMilli (t : Time) : Int := t.sec * 1000 + t.nsec.tdiv 1000000

/-! ## package uuid -/

/-- Go `type UUID [16]byte`. -/
structure UUID where
  bytes : List Byte
  size : bytes.length = 16
  deriving DecidableEq

/-- The zero value `UUID{}` (also `var uuid UUID`). -/
def UUID.zero : UUID := ⟨List.replicate 16 0, rfl⟩

/-- Go `uuid[i]`. -/
def UUID.get (uuid : UUID) (i : Nat) : Byte := at_ uuid.bytes i

/-- Go `uuid[i] = b`. -/
def UUID.set (uuid : UUID) (i : Nat) (b : Byte) : UUID :=
  ⟨uuid.bytes.set i b, by rw [List.length_set]; exact uuid.size⟩

/-- The effect on `uuid` of a callee that fills `uuid[off:]` with `src`. -/
def UUID.write : UUID → Nat → List Byte → UUID
  | uuid, _, [] => uuid
  | uuid, off, b :: bs => UUID.write (uuid.set off b) (off + 1) bs

/-- What `io.ReadFull(rand.Reader, uuid[6:])` did: it filled all ten bytes and
returned a nil error, or it stored fewer than ten bytes and returned an error. -/
inductive RandRead where
  | full (r : List Byte) (h : r.length = 10)
  | short (got : List Byte) (h : got.length < 10) (e : Error)

/-- The bytes the random source stored into `uuid[6:]`. -/
def RandRead.data : RandRead → List Byte
  | .full r _ => r
  | .short got _ _ => got

/-- The error `io.ReadFull` returned. -/
def RandRead.err : RandRead → Option Error
  | .full _ _ => none
  | .short _ _ e => some e

/-- Go `uint64(ms&((1<<48)-1)<<16)` for `ms int64`; `&` and `<<` have the same
precedence and associate to the left, so this is `(ms & (1<<48 - 1)) << 16`. -/
def timestampWord (ms : Int) : Nat :=
  ((toU64 ms &&& ((1 <<< 48) - 1)) <<< 16) % 2 ^ 64

/-- The model of `NewV7()`; `ms` is `time.Now().UTC().UnixMilli()`, `rd` is what
the random source did. -/
def NewV7 (ms : Int) (rd : RandRead) : UUID × Option Error :=
  let uuid := UUID.zero
  let uuid := uuid.write 0 (BigEndian.PutUint64 (timestampWord ms))
  let uuid := uuid.write 6 rd.data
  match rd.err with
  | none =>
    let uuid := uuid.set 6 ((uuid.get 6 &&& 0x0f) ||| 0x70)
    let uuid := uuid.set 8 ((uuid.get 8 &&& 0x3f) ||| 0x80)
    (uuid, none)
  | some err => (uuid, some err)

/-- The model of `Parse(s)`. A failed `hex.Decode` has already stored the bytes
before the bad digit, but every error path returns `UUID{}`. -/
def Parse (s : List Byte) : UUID × Option Error :=
  let uuid := UUID.zero
  let data := s
  if s.length = 32 then
    match hex.Decode (slice data 0 32) with
    | (_, some err) => (UUID.zero, some err)
    | (d, none) => (uuid.write 0 d, none)
  else if s.length = 36 then
    if at_ data 8 ≠ 0x2d ∨ at_ data 13 ≠ 0x2d ∨ at_ data 18 ≠ 0x2d ∨ at_ data 23 ≠ 0x2d then
      (UUID.zero, some Error.InvalidFormat)
    else
      match hex.Decode (slice data 0 8) with
      | (_, some err) => (UUID.zero, some err)
      | (d1, none) =>
      match hex.Decode (slice data 9 13) with
      | (_, some err) => (UUID.zero, some err)
      | (d2, none) =>
      match hex.Decode (slice data 14 18) with
      | (_, some err) => (UUID.zero, some err)
      | (d3, none) =>
      match hex.Decode (slice data 19 23) with
      | (_, some err) => (UUID.zero, some err)
      | (d4, none) =>
      match hex.Decode (slice data 24 36) with
      | (_, some err) => (UUID.zero, some err)
      | (d5, none) =>
        (((((uuid.write 0 d1).write 4 d2).write 6 d3).write 8 d4).write 10 d5, none)
  else (UUID.zero, some Error.InvalidFormat)

/-- The model of `UUIDV7FromObjectID(s)`. `objectId[0:4]` needs four bytes of
capacity and `objectId[4]` needs `len(objectId) > 4`, so the call panics when
fewer than five bytes were decoded; `copy(uuid[9:16], objectId[5:])` copies
`min(7, len(objectId) - 5)` bytes. -/
def UUIDV7FromObjectID (s : List Byte) : Exec (UUID × Option Error) :=
  let uuid := UUID.zero
  match hex.DecodeString s with
  | (_, some err) => .returns (uuid, some err)
  | (objectId, none) =>
    if objectId.length < 5 then .panics
    else
      let seconds : Int := (BigEndian.Uint32 (slice objectId 0 4) : Nat)
      let ms := (time.Unix seconds 0).UnixMilli
      let uuid := uuid.write 0 (BigEndian.PutUint64 (timestampWord ms))
      let uuid := uuid.set 6 ((uuid.get 6 &&& 0x0f) ||| 0x70)
      let uuid := uuid.set 7 (at_ objectId 4)
      let uuid := uuid.set 8 ((uuid.get 8 &&& 0x3f) ||| 0x80)
      let uuid := uuid.write 9 ((objectId.drop 5).take 7)
      .returns (uuid, none)

/-- The model of `UUID.String()`. -/
def UUID.String (uuid : UUID) : List Byte :=
  let buf : List Byte := List.replicate 36 0
  let buf := writeAt buf 0 (hex.Encode (slice uuid.bytes 0 4))
  let buf := buf.set 8 0x2d
  let buf := writeAt buf 9 (hex.Encode (slice uuid.bytes 4 6))
  let buf := buf.set 13 0x2d
  let buf := writeAt buf 14 (hex.Encode (slice uuid.bytes 6 8))
  let buf := buf.set 18 0x2d
  let buf := writeAt buf 19 (hex.Encode (slice uuid.bytes 8 10))
  let buf := buf.set 23 0x2d
  let buf := writeAt buf 24 (hex.Encode (slice uuid.bytes 10 16))
  buf

/-- The model of `UUID.ShortString()`. -/
def UUID.ShortString (uuid : UUID) : List Byte :=
  let buf : List Byte := List.replicate 32 0
  writeAt buf 0 (hex.Encode uuid.bytes)

/-- The model of `UUID.TimeFromV7()`. -/
def UUID.TimeFromV7 (uuid : UUID) : Time :=
  let b8 : List Byte := List.replicate 8 0
  let b8 := writeAt b8 2 (slice uuid.bytes 0 6)
  let unixMilli := toI64 (BigEndian.Uint64 (slice b8 0 8))
  let unixSec := unixMilli.tdiv 1000
  let nanoSec := (unixMilli.tmod 1000) * 1000000
  time.Unix unixSec nanoSec

/-- The model of `UUID.ObjectID()`; the result is the `[12]byte` array. -/
def UUID.ObjectID (uuid : UUID) : List Byte :=
  let b : List Byte := List.replicate 12 0
  let b := writeAt b 0 (BigEndian.PutUint32 (toU32 uuid.TimeFromV7.Unix))
  let b := b.set 4 (uuid.get 7)
  let b := writeAt b 5 (slice uuid.bytes 9 16)
  b

/-- The model of `UUID.ObjectIDHex()`. -/
def UUID.ObjectIDHex (uuid : UUID) : List Byte :=
  hex.EncodeToString uuid.ObjectID

/-! ## Vocabulary of the specification -/

/-- A hexadecimal digit: one of `0-9`, `a-f`, `A-F`. -/
def isHexDigit (c : Byte) : Prop := c ∈ goBytes "0123456789abcdefABCDEF"

instance : DecidablePred isHexDigit := fun c => by unfold isHexDigit; infer_instance

/-- A lowercase hexadecimal digit: one of `0-9`, `a-f`. -/
def isLowerHexDigit (c : Byte) : Prop := c ∈ goBytes "0123456789abcdef"

instance : DecidablePred isLowerHexDigit := fun c => by unfold isLowerHexDigit; infer_instance

/-- The digit `c` with `A-F` replaced by `a-f`; any other byte is unchanged. -/
def lowerDigit (c : Byte) : Byte :=
  if c ∈ goBytes "ABCDEF" then c + 0x20 else c

/-- The number a hexadecimal digit denotes: its position in `0123456789abcdef`,
or in `0123456789ABCDEF` for an uppercase digit. -/
def digitValue (c : Byte) : Nat :=
  if c ∈ goBytes "0123456789abcdef" then (goBytes "0123456789abcdef").indexOf c
  else (goBytes "0123456789ABCDEF").indexOf c

/-- The bytes denoted by consecutive digit pairs: `16 * first + second` each. -/
def pairBytes : List Byte → List Byte
  | p :: q :: rest => toByte (16 * digitValue p + digitValue q) :: pairBytes rest
  | _ => []

/-- The 48-bit number stored big-endian in bytes 0-5 of an identifier. -/
def UUID.millis (uuid : UUID) : Nat :=
  (uuid.get 0).val * 2 ^ 40 + (uuid.get 1).val * 2 ^ 32 + (uuid.get 2).val * 2 ^ 24 +
    (uuid.get 3).val * 2 ^ 16 + (uuid.get 4).val * 2 ^ 8 + (uuid.get 5).val

/-- Big-endian bytes of a 48-bit number, most significant first. -/
def be48 (m : Nat) : List Byte :=
  [toByte (m / 2 ^ 40), toByte (m / 2 ^ 32), toByte (m / 2 ^ 24), toByte (m / 2 ^ 16),
   toByte (m / 2 ^ 8), toByte m]

/-- The unsigned 32-bit number stored big-endian in four bytes. -/
def be32val (b0 b1 b2 b3 : Byte) : Nat :=
  b0.val * 2 ^ 24 + b1.val * 2 ^ 16 + b2.val * 2 ^ 8 + b3.val

/-- The 32 bytes of a 36-byte string at the positions other than 8, 13, 18 and 23. -/
def digits36 (s : List Byte) : List Byte :=
  slice s 0 8 ++ slice s 9 13 ++ slice s 14 18 ++ slice s 19 23 ++ slice s 24 36

/-- The unsigned 32-bit number stored big-endian in bytes 0-3 of a byte string. -/
def legacySeconds (l : List Byte) : Nat :=
  be32val (at_ l 0) (at_ l 1) (at_ l 2) (at_ l 3)

/-- Strict byte-wise lexicographic order on byte strings. -/
def lexLt : List Byte → List Byte → Bool
  | [], [] => false
  | [], _ :: _ => true
  | _ :: _, [] => false
  | a :: as, b :: bs => a < b || (a == b && lexLt as bs)

/-! ## Lemmas on the models -/

theorem fromHexChar_digit : ∀ c : Byte, isHexDigit c →
    hex.fromHexChar c = some (toByte (digitValue c)) ∧ digitValue c < 16 := by
  decide

theorem fromHexChar_none : ∀ c : Byte, ¬ isHexDigit c → hex.fromHexChar c = none := by
  decide

theorem nibble_join : ∀ a : Fin 16, ∀ b : Fin 16,
    (toByte a.val <<< 4) ||| toByte b.val = toByte (16 * a.val + b.val) := by
  decide

theorem nibble_split : ∀ a : Fin 16, ∀ b : Fin 16,
    (toByte (16 * a.val + b.val) >>> 4).val = a.val ∧
    (toByte (16 * a.val + b.val) &&& 0x0f).val = b.val := by
  decide

theorem hextable_digit : ∀ c : Byte, isHexDigit c →
    at_ hex.hextable (digitValue c) = lowerDigit c := by
  decide

theorem lowerDigit_of_lower : ∀ c : Byte, isLowerHexDigit c → lowerDigit c = c := by
  decide

theorem UUID.ext_bytes {u v : UUID} (h : u.bytes = v.bytes) : u = v := by
  cases u; cases v; cases h; rfl

theorem UUID.write_bytes (src : List Byte) : ∀ (uuid : UUID) (off : Nat),
    (uuid.write off src).bytes = writeAt uuid.bytes off src := by
  induction src with
  | nil => intro uuid off; rfl
  | cons b bs ih => intro uuid off; simp only [UUID.write, writeAt, ih]; rfl

theorem writeAt_append (src : List Byte) : ∀ (pre mid post : List Byte),
    mid.length = src.length →
    writeAt (pre ++ mid ++ post) pre.length src = pre ++ src ++ post := by
  induction src with
  | nil =>
    intro pre mid post h
    have : mid = [] := List.length_eq_zero.mp (by simpa using h)
    subst this
    simp [writeAt]
  | cons b bs ih =>
    intro pre mid post h
    cases mid with
    | nil => simp at h
    | cons m ms =>
      have hlen : ms.length = bs.length := by simpa using h
      have hset : (pre ++ m :: ms ++ post).set pre.length b = (pre ++ [b]) ++ ms ++ post := by
        simp [List.set_append_right]
      have := ih (pre ++ [b]) ms post hlen
      simp only [writeAt, hset]
      simpa using this

theorem writeAt_full (buf src : List Byte) (h : src.length = buf.length) :
    writeAt buf 0 src = src := by
  have := writeAt_append src [] buf [] h.symm
  simpa using this

theorem length_pairBytes : ∀ (l : List Byte), (pairBytes l).length = l.length / 2
  | [] => rfl
  | [_] => by simp [pairBytes]
  | _ :: _ :: rest => by
    simp only [pairBytes, List.length_cons, length_pairBytes rest]
    omega

theorem decode_hex : ∀ (l : List Byte), (∀ c ∈ l, isHexDigit c) → l.length % 2 = 0 →
    hex.Decode l = (pairBytes l, none)
  | [], _, _ => rfl
  | [_], _, h => by simp at h
  | p :: q :: rest, hh, hl => by
    have hp := fromHexChar_digit p (hh p (by simp))
    have hq := fromHexChar_digit q (hh q (by simp))
    have ih := decode_hex rest (fun c hc => hh c (by simp [hc]))
      (by simp only [List.length_cons] at hl; omega)
    simp only [hex.Decode, hp.1, hq.1, ih, pairBytes]
    rw [nibble_join ⟨_, hp.2⟩ ⟨_, hq.2⟩]

theorem encode_pairBytes : ∀ (l : List Byte), (∀ c ∈ l, isHexDigit c) → l.length % 2 = 0 →
    hex.Encode (pairBytes l) = l.map lowerDigit
  | [], _, _ => rfl
  | [_], _, h => by simp at h
  | p :: q :: rest, hh, hl => by
    have hp := fromHexChar_digit p (hh p (by simp))
    have hq := fromHexChar_digit q (hh q (by simp))
    have ih := encode_pairBytes rest (fun c hc => hh c (by simp [hc]))
      (by simp only [List.length_cons] at hl; omega)
    have hs := nibble_split ⟨_, hp.2⟩ ⟨_, hq.2⟩
    simp only [hex.Encode] at ih
    simp only [pairBytes, hex.Encode, List.flatMap_cons, ih, List.map_cons, hs.1, hs.2,
      hextable_digit p (hh p (by simp)), hextable_digit q (hh q (by simp))]
    rfl

theorem map_lowerDigit_of_lower (l : List Byte) (h : ∀ c ∈ l, isLowerHexDigit c) :
    l.map lowerDigit = l := by
  induction l with
  | nil => rfl
  | cons a t ih =>
    simp only [List.map_cons, lowerDigit_of_lower a (h a (by simp)),
      ih (fun c hc => h c (by simp [hc]))]

theorem length_encode (l : List Byte) : (hex.Encode l).length = 2 * l.length := by
  induction l with
  | nil => rfl
  | cons a t ih =>
    simp only [hex.Encode, List.flatMap_cons, List.length_append, List.length_cons,
      List.length_nil] at ih ⊢
    omega

theorem or_shiftLeft (acc y k : Nat) (h : acc < 2 ^ k) : acc ||| (y <<< k) = acc + y * 2 ^ k := by
  rw [Nat.shiftLeft_eq, Nat.lor_comm, Nat.mul_comm y, ← Nat.mul_add_lt_is_or h y, Nat.add_comm]

theorem toByte_val (n : Nat) : (toByte n).val = n % 256 := rfl

theorem uint64_eq (b0 b1 b2 b3 b4 b5 b6 b7 : Byte) :
    BigEndian.Uint64 [b0, b1, b2, b3, b4, b5, b6, b7] =
      b0.val * 2 ^ 56 + b1.val * 2 ^ 48 + b2.val * 2 ^ 40 + b3.val * 2 ^ 32 +
      b4.val * 2 ^ 24 + b5.val * 2 ^ 16 + b6.val * 2 ^ 8 + b7.val := by
  have h0 := b0.isLt; have h1 := b1.isLt; have h2 := b2.isLt; have h3 := b3.isLt
  have h4 := b4.isLt; have h5 := b5.isLt; have h6 := b6.isLt; have h7 := b7.isLt
  simp only [BigEndian.Uint64, at_, List.getD_cons_zero, List.getD_cons_succ]
  rw [or_shiftLeft _ _ 8 (by omega), or_shiftLeft _ _ 16 (by omega),
    or_shiftLeft _ _ 24 (by omega), or_shiftLeft _ _ 32 (by omega),
    or_shiftLeft _ _ 40 (by omega), or_shiftLeft _ _ 48 (by omega),
    or_shiftLeft _ _ 56 (by omega)]
  omega

theorem uint32_eq (b0 b1 b2 b3 : Byte) :
    BigEndian.Uint32 [b0, b1, b2, b3] =
      b0.val * 2 ^ 24 + b1.val * 2 ^ 16 + b2.val * 2 ^ 8 + b3.val := by
  have h0 := b0.isLt; have h1 := b1.isLt; have h2 := b2.isLt; have h3 := b3.isLt
  simp only [BigEndian.Uint32, at_, List.getD_cons_zero, List.getD_cons_succ]
  rw [or_shiftLeft _ _ 8 (by omega), or_shiftLeft _ _ 16 (by omega),
    or_shiftLeft _ _ 24 (by omega)]
  omega

theorem timestampWord_eq (ms : Int) : timestampWord ms = (ms % 2 ^ 48).toNat * 2 ^ 16 := by
  have h1 : (1 <<< 48 : Nat) = 2 ^ 48 := by decide
  unfold timestampWord toU64
  rw [h1, Nat.and_pow_two_sub_one_eq_mod, Nat.shiftLeft_eq]
  omega

theorem list_len_succ {n : Nat} {l : List Byte} (h : l.length = n + 1) :
    ∃ a t, l = a :: t ∧ t.length = n := by
  cases l with
  | nil => simp at h
  | cons a t => exact ⟨a, t, rfl, by simpa using h⟩

theorem UUID.exists_bytes (uuid : UUID) :
    ∃ b0 b1 b2 b3 b4 b5 b6 b7 b8 b9 b10 b11 b12 b13 b14 b15 : Byte,
      uuid.bytes = [b0, b1, b2, b3, b4, b5, b6, b7, b8, b9, b10, b11, b12, b13, b14, b15] := by
  obtain ⟨l, h⟩ := uuid
  obtain ⟨b0, l0, rfl, h0⟩ := list_len_succ h
  obtain ⟨b1, l1, rfl, h1⟩ := list_len_succ h0
  obtain ⟨b2, l2, rfl, h2⟩ := list_len_succ h1
  obtain ⟨b3, l3, rfl, h3⟩ := list_len_succ h2
  obtain ⟨b4, l4, rfl, h4⟩ := list_len_succ h3
  obtain ⟨b5, l5, rfl, h5⟩ := list_len_succ h4
  obtain ⟨b6, l6, rfl, h6⟩ := list_len_succ h5
  obtain ⟨b7, l7, rfl, h7⟩ := list_len_succ h6
  obtain ⟨b8, l8, rfl, h8⟩ := list_len_succ h7
  obtain ⟨b9, l9, rfl, h9⟩ := list_len_succ h8
  obtain ⟨b10, l10, rfl, h10⟩ := list_len_succ h9
  obtain ⟨b11, l11, rfl, h11⟩ := list_len_succ h10
  obtain ⟨b12, l12, rfl, h12⟩ := list_len_succ h11
  obtain ⟨b13, l13, rfl, h13⟩ := list_len_succ h12
  obtain ⟨b14, l14, rfl, h14⟩ := list_len_succ h13
  obtain ⟨b15, l15, rfl, h15⟩ := list_len_succ h14
  have := List.length_eq_zero.mp h15
  subst this
  exact ⟨b0, b1, b2, b3, b4, b5, b6, b7, b8, b9, b10, b11, b12, b13, b14, b15, rfl⟩

theorem time_unix_normal (sec nsec : Int) (h0 : 0 ≤ nsec) (h1 : nsec < 1000000000) :
    time.Unix sec nsec = ⟨sec, nsec⟩ := by
  unfold time.Unix
  rw [if_neg (by omega)]

theorem TimeFromV7_eq (uuid : UUID) :
    uuid.TimeFromV7 = ⟨(uuid.millis : Int) / 1000, (uuid.millis : Int) % 1000 * 1000000⟩ := by
  obtain ⟨b0, b1, b2, b3, b4, b5, b6, b7, b8, b9, b10, b11, b12, b13, b14, b15, hb⟩ :=
    uuid.exists_bytes
  have h0 := b0.isLt; have h1 := b1.isLt; have h2 := b2.isLt; have h3 := b3.isLt
  have h4 := b4.isLt; have h5 := b5.isLt
  have hm : uuid.millis = b0.val * 2 ^ 40 + b1.val * 2 ^ 32 + b2.val * 2 ^ 24 +
      b3.val * 2 ^ 16 + b4.val * 2 ^ 8 + b5.val := by
    simp [UUID.millis, UUID.get, at_, hb]
  have hlt : uuid.millis < 2 ^ 48 := by rw [hm]; omega
  have hw : BigEndian.Uint64 (slice (writeAt (List.replicate 8 0) 2 (slice uuid.bytes 0 6)) 0 8)
      = uuid.millis := by
    rw [hb, hm]
    simp only [slice, List.drop, List.take, writeAt, List.replicate, List.set,
      Nat.sub_zero, Nat.reduceAdd, Nat.reduceSub]
    rw [uint64_eq]
    simp
  have hi : toI64 uuid.millis = (uuid.millis : Int) := by
    unfold toI64
    rw [if_pos (by omega)]
    congr 1
    omega
  simp only [UUID.TimeFromV7, hw, hi]
  have hd : (uuid.millis : Int).tdiv 1000 = (uuid.millis : Int) / 1000 :=
    Int.tdiv_eq_ediv (by omega) (by omega)
  have hmod : (uuid.millis : Int).tmod 1000 = (uuid.millis : Int) % 1000 :=
    Int.tmod_eq_emod (by omega) (by omega)
  rw [hd, hmod]
  exact time_unix_normal _ _ (by omega) (by omega)

theorem toByte_congr {a b : Nat} (h : a % 256 = b % 256) : toByte a = toByte b :=
  Fin.ext h

theorem putUint64_timestamp (ms : Int) :
    BigEndian.PutUint64 (timestampWord ms) = be48 (ms % 2 ^ 48).toNat ++ [0, 0] := by
  rw [timestampWord_eq]
  have hM : (ms % 2 ^ 48).toNat < 2 ^ 48 := by omega
  generalize (ms % 2 ^ 48).toNat = M at hM
  simp only [BigEndian.PutUint64, be48, Nat.shiftRight_eq_div_pow, List.cons_append,
    List.nil_append, List.cons.injEq, and_true]
  refine ⟨toByte_congr (by omega), toByte_congr (by omega), toByte_congr (by omega),
    toByte_congr (by omega), toByte_congr (by omega), toByte_congr (by omega),
    Fin.ext ?_, Fin.ext ?_⟩
  · show M * 2 ^ 16 / 2 ^ 8 % 256 = 0
    omega
  · show M * 2 ^ 16 % 256 = 0
    omega

theorem NewV7_full (ms : Int) (r0 r1 r2 r3 r4 r5 r6 r7 r8 r9 : Byte)
    (h : [r0, r1, r2, r3, r4, r5, r6, r7, r8, r9].length = 10) :
    (NewV7 ms (.full [r0, r1, r2, r3, r4, r5, r6, r7, r8, r9] h)).2 = none ∧
    (NewV7 ms (.full [r0, r1, r2, r3, r4, r5, r6, r7, r8, r9] h)).1.bytes =
      be48 (ms % 2 ^ 48).toNat ++
        [(r0 &&& 0x0f) ||| 0x70, r1, (r2 &&& 0x3f) ||| 0x80, r3, r4, r5, r6, r7, r8, r9] := by
  constructor
  · rfl
  · simp only [NewV7, RandRead.data, RandRead.err, UUID.set, UUID.get, UUID.write_bytes,
      putUint64_timestamp, be48, UUID.zero]
    simp [writeAt, at_, List.replicate]

theorem list10 {l : List Byte} (h : l.length = 10) :
    ∃ r0 r1 r2 r3 r4 r5 r6 r7 r8 r9 : Byte, l = [r0, r1, r2, r3, r4, r5, r6, r7, r8, r9] := by
  obtain ⟨r0, l0, rfl, h0⟩ := list_len_succ h
  obtain ⟨r1, l1, rfl, h1⟩ := list_len_succ h0
  obtain ⟨r2, l2, rfl, h2⟩ := list_len_succ h1
  obtain ⟨r3, l3, rfl, h3⟩ := list_len_succ h2
  obtain ⟨r4, l4, rfl, h4⟩ := list_len_succ h3
  obtain ⟨r5, l5, rfl, h5⟩ := list_len_succ h4
  obtain ⟨r6, l6, rfl, h6⟩ := list_len_succ h5
  obtain ⟨r7, l7, rfl, h7⟩ := list_len_succ h6
  obtain ⟨r8, l8, rfl, h8⟩ := list_len_succ h7
  obtain ⟨r9, l9, rfl, h9⟩ := list_len_succ h8
  have := List.length_eq_zero.mp h9
  subst this
  exact ⟨r0, r1, r2, r3, r4, r5, r6, r7, r8, r9, rfl⟩

theorem version_bits : ∀ b : Byte, ((b &&& 0x0f) ||| 0x70) >>> 4 = 7 := by decide

theorem variant_bits : ∀ b : Byte, ((b &&& 0x3f) ||| 0x80) >>> 6 = 2 := by decide

theorem be48_millis (m : Nat) (hm : m < 2 ^ 48) (u : UUID) (rest : List Byte)
    (hu : u.bytes = be48 m ++ rest) : u.millis = m := by
  simp only [UUID.millis, UUID.get, at_, hu, be48, List.cons_append, List.getD_cons_zero,
    List.getD_cons_succ, toByte_val]
  omega

theorem list12 {l : List Byte} (h : l.length = 12) :
    ∃ l0 l1 l2 l3 l4 l5 l6 l7 l8 l9 l10 l11 : Byte,
      l = [l0, l1, l2, l3, l4, l5, l6, l7, l8, l9, l10, l11] := by
  obtain ⟨l0, t0, rfl, h0⟩ := list_len_succ h
  obtain ⟨l1, t1, rfl, h1⟩ := list_len_succ h0
  obtain ⟨l2, t2, rfl, h2⟩ := list_len_succ h1
  obtain ⟨l3, t3, rfl, h3⟩ := list_len_succ h2
  obtain ⟨l4, t4, rfl, h4⟩ := list_len_succ h3
  obtain ⟨l5, t5, rfl, h5⟩ := list_len_succ h4
  obtain ⟨l6, t6, rfl, h6⟩ := list_len_succ h5
  obtain ⟨l7, t7, rfl, h7⟩ := list_len_succ h6
  obtain ⟨l8, t8, rfl, h8⟩ := list_len_succ h7
  obtain ⟨l9, t9, rfl, h9⟩ := list_len_succ h8
  obtain ⟨l10, t10, rfl, h10⟩ := list_len_succ h9
  obtain ⟨l11, t11, rfl, h11⟩ := list_len_succ h10
  have := List.length_eq_zero.mp h11
  subst this
  exact ⟨l0, l1, l2, l3, l4, l5, l6, l7, l8, l9, l10, l11, rfl⟩

theorem fromObjectID_decoded (s : List Byte) (l0 l1 l2 l3 l4 l5 l6 l7 l8 l9 l10 l11 : Byte)
    (hdec : hex.DecodeString s = ([l0, l1, l2, l3, l4, l5, l6, l7, l8, l9, l10, l11], none)) :
    ∃ u, UUIDV7FromObjectID s = .returns (u, none) ∧
      u.bytes = be48 (1000 * be32val l0 l1 l2 l3) ++
        [0x70, l4, 0x80, l5, l6, l7, l8, l9, l10, l11] := by
  have h0 := l0.isLt; have h1 := l1.isLt; have h2 := l2.isLt; have h3 := l3.isLt
  have hS : BigEndian.Uint32 (slice [l0, l1, l2, l3, l4, l5, l6, l7, l8, l9, l10, l11] 0 4) =
      be32val l0 l1 l2 l3 := by
    have hsl : slice [l0, l1, l2, l3, l4, l5, l6, l7, l8, l9, l10, l11] 0 4 = [l0, l1, l2, l3] := rfl
    rw [hsl, uint32_eq]
    rfl
  have hms : (time.Unix ((be32val l0 l1 l2 l3 : Nat) : Int) 0).UnixMilli =
      ((1000 * be32val l0 l1 l2 l3 : Nat) : Int) := by
    rw [time_unix_normal _ _ (by omega) (by omega)]
    simp only [Time.UnixMilli]
    push_cast
    simp
    omega
  have hSlt : be32val l0 l1 l2 l3 < 2 ^ 32 := by
    unfold be32val
    omega
  have hword : (((1000 * be32val l0 l1 l2 l3 : Nat) : Int) % 2 ^ 48).toNat =
      1000 * be32val l0 l1 l2 l3 := by
    generalize be32val l0 l1 l2 l3 = S at hSlt
    have hmod : ((1000 * S : Nat) : Int) % 2 ^ 48 = ((1000 * S : Nat) : Int) :=
      Int.emod_eq_of_lt (by omega) (by omega)
    rw [hmod, Int.toNat_natCast]
  simp only [UUIDV7FromObjectID, hdec, hS, hms]
  rw [if_neg (by simp)]
  refine ⟨_, rfl, ?_⟩
  simp only [UUID.set, UUID.get, UUID.write_bytes, putUint64_timestamp, hword, be48, UUID.zero]
  simp [writeAt, at_, List.replicate]
  exact ⟨by decide, by decide⟩

theorem ObjectID_eq (uuid : UUID) (b0 b1 b2 b3 b4 b5 b6 b7 b8 b9 b10 b11 b12 b13 b14 b15 : Byte)
    (hb : uuid.bytes = [b0, b1, b2, b3, b4, b5, b6, b7, b8, b9, b10, b11, b12, b13, b14, b15]) :
    uuid.ObjectID = BigEndian.PutUint32 (toU32 ((uuid.millis : Int) / 1000)) ++
      [b7, b9, b10, b11, b12, b13, b14, b15] := by
  simp only [UUID.ObjectID, TimeFromV7_eq, Time.Unix, BigEndian.PutUint32, UUID.get, hb]
  simp [writeAt, at_, slice, List.replicate]

theorem putUint32_be32val (l0 l1 l2 l3 : Byte) :
    BigEndian.PutUint32 (be32val l0 l1 l2 l3) = [l0, l1, l2, l3] := by
  have h0 := l0.isLt; have h1 := l1.isLt; have h2 := l2.isLt; have h3 := l3.isLt
  simp only [BigEndian.PutUint32, be32val, Nat.shiftRight_eq_div_pow, List.cons.injEq, and_true]
  refine ⟨Fin.ext ?_, Fin.ext ?_, Fin.ext ?_, Fin.ext ?_⟩ <;> simp only [toByte_val] <;> omega

theorem objectID_of_fromObjectID (u : UUID) (l0 l1 l2 l3 l4 l5 l6 l7 l8 l9 l10 l11 : Byte)
    (hu : u.bytes = be48 (1000 * be32val l0 l1 l2 l3) ++
      [0x70, l4, 0x80, l5, l6, l7, l8, l9, l10, l11]) :
    u.ObjectID = [l0, l1, l2, l3, l4, l5, l6, l7, l8, l9, l10, l11] := by
  have h0 := l0.isLt; have h1 := l1.isLt; have h2 := l2.isLt; have h3 := l3.isLt
  have hSlt : be32val l0 l1 l2 l3 < 2 ^ 32 := by
    unfold be32val
    omega
  have hmil := be48_millis (1000 * be32val l0 l1 l2 l3) (by omega) u _ hu
  have hsec : toU32 ((u.millis : Int) / 1000) = be32val l0 l1 l2 l3 := by
    rw [hmil]
    generalize be32val l0 l1 l2 l3 = S at hSlt
    have hdiv : ((1000 * S : Nat) : Int) / 1000 = (S : Int) := by omega
    have hmod : (S : Int) % 2 ^ 32 = (S : Int) := Int.emod_eq_of_lt (by omega) (by omega)
    rw [toU32, hdiv, hmod, Int.toNat_natCast]
  have hb := hu
  simp only [be48, List.cons_append, List.nil_append] at hb
  rw [ObjectID_eq u _ _ _ _ _ _ _ _ _ _ _ _ _ _ _ _ hb, hsec, putUint32_be32val]
  rfl

theorem list36 {l : List Byte} (h : l.length = 36) :
    ∃ c0 c1 c2 c3 c4 c5 c6 c7 c8 c9 c10 c11 c12 c13 c14 c15 c16 c17 c18 c19 c20 c21 c22 c23 c24 c25 c26 c27 c28 c29 c30 c31 c32 c33 c34 c35 : Byte,
      l = c0 :: c1 :: c2 :: c3 :: c4 :: c5 :: c6 :: c7 :: c8 :: c9 :: c10 :: c11 :: c12 :: c13 :: c14 :: c15 :: c16 :: c17 :: c18 :: c19 :: c20 :: c21 :: c22 :: c23 :: c24 :: c25 :: c26 :: c27 :: c28 :: c29 :: c30 :: c31 :: c32 :: c33 :: c34 :: c35 :: [] := by
  obtain ⟨c0, t0, rfl, h0⟩ := list_len_succ h
  obtain ⟨c1, t1, rfl, h1⟩ := list_len_succ h0
  obtain ⟨c2, t2, rfl, h2⟩ := list_len_succ h1
  obtain ⟨c3, t3, rfl, h3⟩ := list_len_succ h2
  obtain ⟨c4, t4, rfl, h4⟩ := list_len_succ h3
  obtain ⟨c5, t5, rfl, h5⟩ := list_len_succ h4
  obtain ⟨c6, t6, rfl, h6⟩ := list_len_succ h5
  obtain ⟨c7, t7, rfl, h7⟩ := list_len_succ h6
  obtain ⟨c8, t8, rfl, h8⟩ := list_len_succ h7
  obtain ⟨c9, t9, rfl, h9⟩ := list_len_succ h8
  obtain ⟨c10, t10, rfl, h10⟩ := list_len_succ h9
  obtain ⟨c11, t11, rfl, h11⟩ := list_len_succ h10
  obtain ⟨c12, t12, rfl, h12⟩ := list_len_succ h11
  obtain ⟨c13, t13, rfl, h13⟩ := list_len_succ h12
  obtain ⟨c14, t14, rfl, h14⟩ := list_len_succ h13
  obtain ⟨c15, t15, rfl, h15⟩ := list_len_succ h14
  obtain ⟨c16, t16, rfl, h16⟩ := list_len_succ h15
  obtain ⟨c17, t17, rfl, h17⟩ := list_len_succ h16
  obtain ⟨c18, t18, rfl, h18⟩ := list_len_succ h17
  obtain ⟨c19, t19, rfl, h19⟩ := list_len_succ h18
  obtain ⟨c20, t20, rfl, h20⟩ := list_len_succ h19
  obtain ⟨c21, t21, rfl, h21⟩ := list_len_succ h20
  obtain ⟨c22, t22, rfl, h22⟩ := list_len_succ h21
  obtain ⟨c23, t23, rfl, h23⟩ := list_len_succ h22
  obtain ⟨c24, t24, rfl, h24⟩ := list_len_succ h23
  obtain ⟨c25, t25, rfl, h25⟩ := list_len_succ h24
  obtain ⟨c26, t26, rfl, h26⟩ := list_len_succ h25
  obtain ⟨c27, t27, rfl, h27⟩ := list_len_succ h26
  obtain ⟨c28, t28, rfl, h28⟩ := list_len_succ h27
  obtain ⟨c29, t29, rfl, h29⟩ := list_len_succ h28
  obtain ⟨c30, t30, rfl, h30⟩ := list_len_succ h29
  obtain ⟨c31, t31, rfl, h31⟩ := list_len_succ h30
  obtain ⟨c32, t32, rfl, h32⟩ := list_len_succ h31
  obtain ⟨c33, t33, rfl, h33⟩ := list_len_succ h32
  obtain ⟨c34, t34, rfl, h34⟩ := list_len_succ h33
  obtain ⟨c35, t35, rfl, h35⟩ := list_len_succ h34
  have := List.length_eq_zero.mp h35
  subst this
  exact ⟨c0, c1, c2, c3, c4, c5, c6, c7, c8, c9, c10, c11, c12, c13, c14, c15, c16, c17, c18, c19, c20, c21, c22, c23, c24, c25, c26, c27, c28, c29, c30, c31, c32, c33, c34, c35, rfl⟩

theorem Parse36 (s : List Byte) (hlen : s.length = 36)
    (hh : at_ s 8 = 0x2d ∧ at_ s 13 = 0x2d ∧ at_ s 18 = 0x2d ∧ at_ s 23 = 0x2d)
    (hhex : ∀ c ∈ digits36 s, isHexDigit c) :
    ∃ u, Parse s = (u, none) ∧ u.bytes = pairBytes (digits36 s) := by
  have hd1 := decode_hex (slice s 0 8) (fun c hc => hhex c (by simp [digits36, hc]))
    (by simp [slice, hlen])
  have hd2 := decode_hex (slice s 9 13) (fun c hc => hhex c (by simp [digits36, hc]))
    (by simp [slice, hlen])
  have hd3 := decode_hex (slice s 14 18) (fun c hc => hhex c (by simp [digits36, hc]))
    (by simp [slice, hlen])
  have hd4 := decode_hex (slice s 19 23) (fun c hc => hhex c (by simp [digits36, hc]))
    (by simp [slice, hlen])
  have hd5 := decode_hex (slice s 24 36) (fun c hc => hhex c (by simp [digits36, hc]))
    (by simp [slice, hlen])
  simp only [Parse]
  rw [if_neg (show ¬ s.length = 32 by omega), if_pos hlen,
    if_neg (show ¬ (at_ s 8 ≠ 0x2d ∨ at_ s 13 ≠ 0x2d ∨ at_ s 18 ≠ 0x2d ∨ at_ s 23 ≠ 0x2d) by
      simp [hh]), hd1, hd2, hd3, hd4, hd5]
  refine ⟨_, rfl, ?_⟩
  obtain ⟨c0, c1, c2, c3, c4, c5, c6, c7, c8, c9, c10, c11, c12, c13, c14, c15, c16, c17, c18,
    c19, c20, c21, c22, c23, c24, c25, c26, c27, c28, c29, c30, c31, c32, c33, c34, c35, rfl⟩ :=
    list36 hlen
  simp only [UUID.write_bytes, UUID.zero, digits36]
  simp [slice, pairBytes, writeAt, List.replicate]

theorem String_eq (uuid : UUID) (b0 b1 b2 b3 b4 b5 b6 b7 b8 b9 b10 b11 b12 b13 b14 b15 : Byte)
    (hb : uuid.bytes = [b0, b1, b2, b3, b4, b5, b6, b7, b8, b9, b10, b11, b12, b13, b14, b15]) :
    uuid.String = hex.Encode [b0, b1, b2, b3] ++ [0x2d] ++ hex.Encode [b4, b5] ++ [0x2d] ++
      hex.Encode [b6, b7] ++ [0x2d] ++ hex.Encode [b8, b9] ++ [0x2d] ++
      hex.Encode [b10, b11, b12, b13, b14, b15] := by
  simp only [UUID.String, hb]
  simp [slice, hex.Encode, writeAt, List.replicate]

theorem lowerDigit_hyphen : lowerDigit 0x2d = 0x2d := by decide

theorem decode_bad : ∀ (l : List Byte), (∃ c ∈ l, ¬ isHexDigit c) →
    ∃ b, b ∈ l ∧ ¬ isHexDigit b ∧ ∃ d, hex.Decode l = (d, some (Error.InvalidByteError b))
  | [], h => by simp at h
  | [p], h => by
    obtain ⟨c, hc, hbad⟩ := h
    have hcp : c = p := by simpa using hc
    subst hcp
    exact ⟨c, by simp, hbad, [], by simp only [hex.Decode, fromHexChar_none c hbad]⟩
  | p :: q :: rest, h => by
    by_cases hp : isHexDigit p
    · by_cases hq : isHexDigit q
      · have hrest : ∃ c ∈ rest, ¬ isHexDigit c := by
          obtain ⟨c, hc, hbad⟩ := h
          simp only [List.mem_cons] at hc
          rcases hc with rfl | rfl | hc
          · exact absurd hp hbad
          · exact absurd hq hbad
          · exact ⟨c, hc, hbad⟩
        obtain ⟨b, hb, hbad, d, hd⟩ := decode_bad rest hrest
        refine ⟨b, by simp [hb], hbad, ?_⟩
        simp only [hex.Decode, (fromHexChar_digit p hp).1, (fromHexChar_digit q hq).1, hd]
        exact ⟨_, rfl⟩
      · refine ⟨q, by simp, hq, [], ?_⟩
        simp only [hex.Decode, (fromHexChar_digit p hp).1, fromHexChar_none q hq]
    · refine ⟨p, by simp, hp, [], ?_⟩
      simp only [hex.Decode, fromHexChar_none p hp]

theorem encode_byte_digits : ∀ b : Byte,
    isLowerHexDigit (at_ hex.hextable (b >>> 4).val) ∧
    isLowerHexDigit (at_ hex.hextable (b &&& 0x0f).val) ∧
    toByte (16 * digitValue (at_ hex.hextable (b >>> 4).val) +
      digitValue (at_ hex.hextable (b &&& 0x0f).val)) = b := by
  decide

theorem lower_isHex : ∀ c : Byte, isLowerHexDigit c → isHexDigit c := by
  decide

theorem encode_cons (b : Byte) (l : List Byte) :
    hex.Encode (b :: l) =
      at_ hex.hextable (b >>> 4).val :: at_ hex.hextable (b &&& 0x0f).val :: hex.Encode l := by
  simp [hex.Encode]

theorem encode_lower : ∀ (l : List Byte), ∀ c ∈ hex.Encode l, isLowerHexDigit c
  | [], c, hc => by simp [hex.Encode] at hc
  | b :: l, c, hc => by
    rw [encode_cons] at hc
    simp only [List.mem_cons] at hc
    rcases hc with rfl | rfl | hc
    · exact (encode_byte_digits b).1
    · exact (encode_byte_digits b).2.1
    · exact encode_lower l c hc

theorem pairBytes_encode : ∀ (l : List Byte), pairBytes (hex.Encode l) = l
  | [] => rfl
  | b :: l => by
    rw [encode_cons, pairBytes, (encode_byte_digits b).2.2, pairBytes_encode l]

theorem decode_encode (l : List Byte) : hex.Decode (hex.Encode l) = (l, none) := by
  have h := decode_hex (hex.Encode l) (fun c hc => lower_isHex c (encode_lower l c hc))
    (by rw [length_encode]; omega)
  rw [h, pairBytes_encode]

theorem ShortString_eq (uuid : UUID) : uuid.ShortString = hex.Encode uuid.bytes := by
  unfold UUID.ShortString
  exact writeAt_full _ _ (by rw [length_encode, uuid.size]; rfl)

theorem list4 {l : List Byte} (h : l.length = 4) :
    ∃ a0 a1 a2 a3 : Byte, l = [a0, a1, a2, a3] := by
  obtain ⟨a0, t0, rfl, h0⟩ := list_len_succ h
  obtain ⟨a1, t1, rfl, h1⟩ := list_len_succ h0
  obtain ⟨a2, t2, rfl, h2⟩ := list_len_succ h1
  obtain ⟨a3, t3, rfl, h3⟩ := list_len_succ h2
  have := List.length_eq_zero.mp h3
  subst this
  exact ⟨a0, a1, a2, a3, rfl⟩

theorem list8 {l : List Byte} (h : l.length = 8) :
    ∃ a0 a1 a2 a3 a4 a5 a6 a7 : Byte, l = [a0, a1, a2, a3, a4, a5, a6, a7] := by
  obtain ⟨a0, t0, rfl, h0⟩ := list_len_succ h
  obtain ⟨a1, t1, rfl, h1⟩ := list_len_succ h0
  obtain ⟨a2, t2, rfl, h2⟩ := list_len_succ h1
  obtain ⟨a3, t3, rfl, h3⟩ := list_len_succ h2
  obtain ⟨a4, t4, rfl, h4⟩ := list_len_succ h3
  obtain ⟨a5, t5, rfl, h5⟩ := list_len_succ h4
  obtain ⟨a6, t6, rfl, h6⟩ := list_len_succ h5
  obtain ⟨a7, t7, rfl, h7⟩ := list_len_succ h6
  have := List.length_eq_zero.mp h7
  subst this
  exact ⟨a0, a1, a2, a3, a4, a5, a6, a7, rfl⟩

theorem hyphenated_layout (g1 g2 g3 g4 g5 : List Byte) (h1 : g1.length = 8)
    (h2 : g2.length = 4) (h3 : g3.length = 4) (h4 : g4.length = 4) (h5 : g5.length = 12) :
    (g1 ++ [0x2d] ++ g2 ++ [0x2d] ++ g3 ++ [0x2d] ++ g4 ++ [0x2d] ++ g5).length = 36 ∧
    (at_ (g1 ++ [0x2d] ++ g2 ++ [0x2d] ++ g3 ++ [0x2d] ++ g4 ++ [0x2d] ++ g5) 8 = 0x2d ∧
      at_ (g1 ++ [0x2d] ++ g2 ++ [0x2d] ++ g3 ++ [0x2d] ++ g4 ++ [0x2d] ++ g5) 13 = 0x2d ∧
      at_ (g1 ++ [0x2d] ++ g2 ++ [0x2d] ++ g3 ++ [0x2d] ++ g4 ++ [0x2d] ++ g5) 18 = 0x2d ∧
      at_ (g1 ++ [0x2d] ++ g2 ++ [0x2d] ++ g3 ++ [0x2d] ++ g4 ++ [0x2d] ++ g5) 23 = 0x2d) ∧
    digits36 (g1 ++ [0x2d] ++ g2 ++ [0x2d] ++ g3 ++ [0x2d] ++ g4 ++ [0x2d] ++ g5) =
      g1 ++ g2 ++ g3 ++ g4 ++ g5 := by
  obtain ⟨a0, a1, a2, a3, a4, a5, a6, a7, rfl⟩ := list8 h1
  obtain ⟨c0, c1, c2, c3, rfl⟩ := list4 h2
  obtain ⟨d0, d1, d2, d3, rfl⟩ := list4 h3
  obtain ⟨e0, e1, e2, e3, rfl⟩ := list4 h4
  obtain ⟨f0, f1, f2, f3, f4, f5, f6, f7, f8, f9, f10, f11, rfl⟩ := list12 h5
  exact ⟨rfl, ⟨rfl, rfl, rfl, rfl⟩, rfl⟩

theorem String_layout (uuid : UUID) :
    uuid.String.length = 36 ∧
    (at_ uuid.String 8 = 0x2d ∧ at_ uuid.String 13 = 0x2d ∧ at_ uuid.String 18 = 0x2d ∧
      at_ uuid.String 23 = 0x2d) ∧
    digits36 uuid.String = hex.Encode uuid.bytes := by
  obtain ⟨b0, b1, b2, b3, b4, b5, b6, b7, b8, b9, b10, b11, b12, b13, b14, b15, hb⟩ :=
    uuid.exists_bytes
  have hl := hyphenated_layout (hex.Encode [b0, b1, b2, b3]) (hex.Encode [b4, b5])
    (hex.Encode [b6, b7]) (hex.Encode [b8, b9]) (hex.Encode [b10, b11, b12, b13, b14, b15])
    (length_encode _) (length_encode _) (length_encode _) (length_encode _) (length_encode _)
  have hcat : hex.Encode [b0, b1, b2, b3] ++ hex.Encode [b4, b5] ++ hex.Encode [b6, b7] ++
      hex.Encode [b8, b9] ++ hex.Encode [b10, b11, b12, b13, b14, b15] = hex.Encode uuid.bytes := by
    rw [hb]
    simp only [hex.Encode, List.flatMap_cons, List.flatMap_nil, List.append_assoc,
      List.cons_append, List.nil_append, List.append_nil]
  rw [String_eq uuid _ _ _ _ _ _ _ _ _ _ _ _ _ _ _ _ hb, ← hcat]
  exact hl

theorem ObjectID_layout (uuid : UUID) :
    uuid.ObjectID = BigEndian.PutUint32 (toU32 ((uuid.millis : Int) / 1000)) ++
      (uuid.get 7 :: slice uuid.bytes 9 16) := by
  obtain ⟨b0, b1, b2, b3, b4, b5, b6, b7, b8, b9, b10, b11, b12, b13, b14, b15, hb⟩ :=
    uuid.exists_bytes
  rw [ObjectID_eq uuid _ _ _ _ _ _ _ _ _ _ _ _ _ _ _ _ hb, UUID.get, hb]
  rfl

theorem legacySeconds_putUint32 (v : Nat) (rest : List Byte) :
    legacySeconds (BigEndian.PutUint32 v ++ rest) = v % 2 ^ 32 := by
  simp only [legacySeconds, BigEndian.PutUint32, at_, List.cons_append, List.getD_cons_zero,
    List.getD_cons_succ, be32val, toByte_val, Nat.shiftRight_eq_div_pow]
  omega

theorem millis_lt (uuid : UUID) : uuid.millis < 2 ^ 48 := by
  have h0 := (uuid.get 0).isLt; have h1 := (uuid.get 1).isLt; have h2 := (uuid.get 2).isLt
  have h3 := (uuid.get 3).isLt; have h4 := (uuid.get 4).isLt; have h5 := (uuid.get 5).isLt
  unfold UUID.millis
  omega

theorem toU32_natCast (n : Nat) : toU32 (n : Int) = n % 2 ^ 32 := by
  unfold toU32
  have h : ((n : Int) % 2 ^ 32) = ((n % 2 ^ 32 : Nat) : Int) := by
    push_cast
    rfl
  rw [h, Int.toNat_natCast]

theorem list7 {l : List Byte} (h : l.length = 7) :
    ∃ a0 a1 a2 a3 a4 a5 a6 : Byte, l = [a0, a1, a2, a3, a4, a5, a6] := by
  obtain ⟨a0, t0, rfl, h0⟩ := list_len_succ h
  obtain ⟨a1, t1, rfl, h1⟩ := list_len_succ h0
  obtain ⟨a2, t2, rfl, h2⟩ := list_len_succ h1
  obtain ⟨a3, t3, rfl, h3⟩ := list_len_succ h2
  obtain ⟨a4, t4, rfl, h4⟩ := list_len_succ h3
  obtain ⟨a5, t5, rfl, h5⟩ := list_len_succ h4
  obtain ⟨a6, t6, rfl, h6⟩ := list_len_succ h5
  have := List.length_eq_zero.mp h6
  subst this
  exact ⟨a0, a1, a2, a3, a4, a5, a6, rfl⟩

theorem length_putUint32 (v : Nat) : (BigEndian.PutUint32 v).length = 4 := rfl

theorem length_slice_9_16 (uuid : UUID) : (slice uuid.bytes 9 16).length = 7 := by
  simp [slice, uuid.size]

theorem ObjectID_tail (uuid : UUID) :
    uuid.ObjectID.length = 12 ∧ at_ uuid.ObjectID 4 = uuid.get 7 ∧
    slice uuid.ObjectID 5 12 = slice uuid.bytes 9 16 ∧
    slice uuid.ObjectID 4 12 = uuid.get 7 :: slice uuid.bytes 9 16 := by
  obtain ⟨t0, t1, t2, t3, ht⟩ := list4 (length_putUint32 (toU32 ((uuid.millis : Int) / 1000)))
  obtain ⟨s0, s1, s2, s3, s4, s5, s6, hs⟩ := list7 (length_slice_9_16 uuid)
  rw [ObjectID_layout, ht, hs]
  exact ⟨rfl, rfl, rfl, rfl⟩

theorem NewV7_short (ms : Int) (got : List Byte) (h : got.length < 10) (e : Error) :
    (NewV7 ms (.short got h e)).2 = some e ∧
    (NewV7 ms (.short got h e)).1.bytes =
      be48 (ms % 2 ^ 48).toNat ++ got ++ List.replicate (10 - got.length) 0 := by
  constructor
  · rfl
  · simp only [NewV7, RandRead.data, RandRead.err, UUID.write_bytes, putUint64_timestamp,
      UUID.zero]
    have h1 : writeAt (List.replicate 16 0) 0 (be48 (ms % 2 ^ 48).toNat ++ [0, 0]) =
        be48 (ms % 2 ^ 48).toNat ++ List.replicate got.length 0 ++
          List.replicate (10 - got.length) 0 := by
      have hrep : List.replicate got.length (0 : Byte) ++ List.replicate (10 - got.length) 0 =
          List.replicate 10 0 := by
        rw [← List.replicate_add]
        congr 1
        omega
      rw [List.append_assoc, hrep]
      rfl
    rw [h1]
    have h2 := writeAt_append got (be48 (ms % 2 ^ 48).toNat) (List.replicate got.length 0)
      (List.replicate (10 - got.length) 0) (by simp)
    exact h2

theorem lexLt_cons_lt (a b : Byte) (as bs : List Byte) (h : a < b) :
    lexLt (a :: as) (b :: bs) = true := by
  simp [lexLt, h]

theorem lexLt_cons_eq (a b : Byte) (as bs : List Byte) (h : a = b) (ht : lexLt as bs = true) :
    lexLt (a :: as) (b :: bs) = true := by
  simp [lexLt, h, ht]

theorem toByte_lt_iff (a b : Nat) : toByte a < toByte b ↔ a % 256 < b % 256 := Iff.rfl

theorem lexLt_be48 (m1 m2 : Nat) (t1 t2 : List Byte) (hlt : m1 < m2) (hhi : m2 < 2 ^ 48) :
    lexLt (be48 m1 ++ t1) (be48 m2 ++ t2) = true := by
  have hle : m1 ≤ m2 := Nat.le_of_lt hlt
  have la5 : m1 / 2 ^ 40 ≤ m2 / 2 ^ 40 := Nat.div_le_div_right hle
  have la4 : m1 / 2 ^ 32 ≤ m2 / 2 ^ 32 := Nat.div_le_div_right hle
  have la3 : m1 / 2 ^ 24 ≤ m2 / 2 ^ 24 := Nat.div_le_div_right hle
  have la2 : m1 / 2 ^ 16 ≤ m2 / 2 ^ 16 := Nat.div_le_div_right hle
  have la1 : m1 / 2 ^ 8 ≤ m2 / 2 ^ 8 := Nat.div_le_div_right hle
  have ha5 : m1 / 2 ^ 40 < 256 := by omega
  have hb5 : m2 / 2 ^ 40 < 256 := by omega
  have ha4 : m1 / 2 ^ 32 / 256 = m1 / 2 ^ 40 := by omega
  have hb4 : m2 / 2 ^ 32 / 256 = m2 / 2 ^ 40 := by omega
  have ha3 : m1 / 2 ^ 24 / 256 = m1 / 2 ^ 32 := by omega
  have hb3 : m2 / 2 ^ 24 / 256 = m2 / 2 ^ 32 := by omega
  have ha2 : m1 / 2 ^ 16 / 256 = m1 / 2 ^ 24 := by omega
  have hb2 : m2 / 2 ^ 16 / 256 = m2 / 2 ^ 24 := by omega
  have ha1 : m1 / 2 ^ 8 / 256 = m1 / 2 ^ 16 := by omega
  have hb1 : m2 / 2 ^ 8 / 256 = m2 / 2 ^ 16 := by omega
  simp only [be48, List.cons_append, List.nil_append]
  generalize m1 / 2 ^ 40 = A5 at *
  generalize m2 / 2 ^ 40 = B5 at *
  generalize m1 / 2 ^ 32 = A4 at *
  generalize m2 / 2 ^ 32 = B4 at *
  generalize m1 / 2 ^ 24 = A3 at *
  generalize m2 / 2 ^ 24 = B3 at *
  generalize m1 / 2 ^ 16 = A2 at *
  generalize m2 / 2 ^ 16 = B2 at *
  by_cases h5 : A5 % 256 < B5 % 256
  · exact lexLt_cons_lt _ _ _ _ h5
  have e5 : A5 = B5 := by omega
  refine lexLt_cons_eq _ _ _ _ (toByte_congr (by omega)) ?_
  by_cases h4 : A4 % 256 < B4 % 256
  · exact lexLt_cons_lt _ _ _ _ h4
  have e4 : A4 = B4 := by omega
  refine lexLt_cons_eq _ _ _ _ (toByte_congr (by omega)) ?_
  by_cases h3 : A3 % 256 < B3 % 256
  · exact lexLt_cons_lt _ _ _ _ h3
  have e3 : A3 = B3 := by omega
  refine lexLt_cons_eq _ _ _ _ (toByte_congr (by omega)) ?_
  by_cases h2 : A2 % 256 < B2 % 256
  · exact lexLt_cons_lt _ _ _ _ h2
  have e2 : A2 = B2 := by omega
  refine lexLt_cons_eq _ _ _ _ (toByte_congr (by omega)) ?_
  by_cases h1 : m1 / 2 ^ 8 % 256 < m2 / 2 ^ 8 % 256
  · exact lexLt_cons_lt _ _ _ _ h1
  have e1 : m1 / 2 ^ 8 = m2 / 2 ^ 8 := by omega
  refine lexLt_cons_eq _ _ _ _ (toByte_congr (by omega)) ?_
  exact lexLt_cons_lt _ _ _ _ ((toByte_lt_iff _ _).2 (by omega))

theorem version_keeps_low : ∀ b : Byte, ((b &&& 0x0f) ||| 0x70) &&& 0x0f = b &&& 0x0f := by
  decide

theorem variant_keeps_low : ∀ b : Byte, ((b &&& 0x3f) ||| 0x80) &&& 0x3f = b &&& 0x3f := by
  decide

/-! ## The claims -/

/-- C1 (as amended): for every 24-byte string `h` of hexadecimal digits,
`UUIDV7FromObjectID(h)` returns an identifier and a nil error, and `ObjectIDHex`
of that identifier is `h` with every digit `A-F` replaced by `a-f`; it is
exactly `h` when `h` holds only the lowercase digits `0-9`, `a-f`. -/
theorem C1_objectid_roundtrip (h : List Byte) (hlen : h.length = 24)
    (hhex : ∀ c ∈ h, isHexDigit c) :
    ∃ u, UUIDV7FromObjectID h = .returns (u, none) ∧
      u.ObjectIDHex = h.map lowerDigit ∧
      ((∀ c ∈ h, isLowerHexDigit c) → u.ObjectIDHex = h) := by
  have hdec := decode_hex h hhex (by omega)
  have hl : (pairBytes h).length = 12 := by rw [length_pairBytes, hlen]
  obtain ⟨l0, l1, l2, l3, l4, l5, l6, l7, l8, l9, l10, l11, hp⟩ := list12 hl
  rw [hp] at hdec
  obtain ⟨u, hret, hu⟩ := fromObjectID_decoded h l0 l1 l2 l3 l4 l5 l6 l7 l8 l9 l10 l11 hdec
  have hobj := objectID_of_fromObjectID u l0 l1 l2 l3 l4 l5 l6 l7 l8 l9 l10 l11 hu
  have hhexs : u.ObjectIDHex = h.map lowerDigit := by
    rw [UUID.ObjectIDHex, hex.EncodeToString, hobj, ← hp, encode_pairBytes h hhex (by omega)]
  exact ⟨u, hret, hhexs, fun hlow => by rw [hhexs, map_lowerDigit_of_lower h hlow]⟩

/-- Counterexample to C1 as stated: the 24 hexadecimal digits
`63EDE45A8D0137FC1B631091` convert without error, and `ObjectIDHex` returns
`63ede45a8d0137fc1b631091`, which is not the input. -/
theorem C1_counterexample :
    (goBytes "63EDE45A8D0137FC1B631091").length = 24 ∧
    (∀ c ∈ goBytes "63EDE45A8D0137FC1B631091", isHexDigit c) ∧
    ∃ u, UUIDV7FromObjectID (goBytes "63EDE45A8D0137FC1B631091") = .returns (u, none) ∧
      u.ObjectIDHex = goBytes "63ede45a8d0137fc1b631091" ∧
      u.ObjectIDHex ≠ goBytes "63EDE45A8D0137FC1B631091" :=
  ⟨by decide, by decide,
    ⟨[0x01, 0x86, 0x59, 0x43, 0xff, 0x90, 0x70, 0x8d, 0x80, 0x01, 0x37, 0xfc, 0x1b, 0x63, 0x10,
      0x91], rfl⟩, by decide, by decide, by decide⟩

/-- Instance of C1 on the object id of the test suite. -/
theorem C1_witness :
    (goBytes "63ede45a8d0137fc1b631091").length = 24 ∧
    (∀ c ∈ goBytes "63ede45a8d0137fc1b631091", isHexDigit c) ∧
    ∃ u, UUIDV7FromObjectID (goBytes "63ede45a8d0137fc1b631091") = .returns (u, none) ∧
      u.ObjectIDHex = (goBytes "63ede45a8d0137fc1b631091").map lowerDigit ∧
      ((∀ c ∈ goBytes "63ede45a8d0137fc1b631091", isLowerHexDigit c) →
        u.ObjectIDHex = goBytes "63ede45a8d0137fc1b631091") :=
  ⟨by decide, by decide,
    C1_objectid_roundtrip (goBytes "63ede45a8d0137fc1b631091") (by decide) (by decide)⟩

/-- C2 (as amended): for every 36-byte string `s` with `-` at indices 8, 13, 18,
23 and hexadecimal digits at the other 32 positions, `Parse` succeeds and
`String` of the parsed identifier is `s` with every digit `A-F` replaced by
`a-f`; it is exactly `s` when the digits of `s` are all lowercase. -/
theorem C2_parse_string (s : List Byte) (hlen : s.length = 36)
    (hh : at_ s 8 = 0x2d ∧ at_ s 13 = 0x2d ∧ at_ s 18 = 0x2d ∧ at_ s 23 = 0x2d)
    (hhex : ∀ c ∈ digits36 s, isHexDigit c) :
    ∃ u, Parse s = (u, none) ∧ u.String = s.map lowerDigit ∧
      ((∀ c ∈ digits36 s, isLowerHexDigit c) → u.String = s) := by
  obtain ⟨u, hp, hb⟩ := Parse36 s hlen hh hhex
  obtain ⟨c0, c1, c2, c3, c4, c5, c6, c7, c8, c9, c10, c11, c12, c13, c14, c15, c16, c17, c18, c19,
    c20, c21, c22, c23, c24, c25, c26, c27, c28, c29, c30, c31, c32, c33, c34, c35, rfl⟩ :=
    list36 hlen
  obtain ⟨h8, h13, h18, h23⟩ := hh
  simp only [at_, List.getD_cons_zero, List.getD_cons_succ] at h8 h13 h18 h23
  subst h8 h13 h18 h23
  have hdig : digits36 (c0 :: c1 :: c2 :: c3 :: c4 :: c5 :: c6 :: c7 :: 0x2d :: c9 :: c10 :: c11 :: c12 :: 0x2d
      :: c14 :: c15 :: c16 :: c17 :: 0x2d :: c19 :: c20 :: c21 :: c22 :: 0x2d :: c24 :: c25 ::
      c26 :: c27 :: c28 :: c29 :: c30 :: c31 :: c32 :: c33 :: c34 :: c35 :: []) =
      [c0, c1, c2, c3, c4, c5, c6, c7, c9, c10, c11, c12, c14, c15, c16, c17, c19, c20, c21,
       c22, c24, c25, c26, c27, c28, c29, c30, c31, c32, c33, c34, c35] := rfl
  rw [hdig] at hhex hb ⊢
  have hstr : u.String = (c0 :: c1 :: c2 :: c3 :: c4 :: c5 :: c6 :: c7 :: 0x2d :: c9 :: c10 :: c11 :: c12 :: 0x2d
      :: c14 :: c15 :: c16 :: c17 :: 0x2d :: c19 :: c20 :: c21 :: c22 :: 0x2d :: c24 :: c25 ::
      c26 :: c27 :: c28 :: c29 :: c30 :: c31 :: c32 :: c33 :: c34 :: c35 :: []).map lowerDigit := by
    have hall := hhex
    simp only [List.forall_mem_cons] at hall
    obtain ⟨q0, q1, q2, q3, q4, q5, q6, q7, q9, q10, q11, q12, q14, q15, q16, q17, q19, q20, q21,
      q22, q24, q25, q26, q27, q28, q29, q30, q31, q32, q33, q34, q35, -⟩ := hall
    have e1 := encode_pairBytes [c0, c1, c2, c3, c4, c5, c6, c7]
      (by
        intro c hc
        simp only [List.mem_cons, List.mem_singleton, List.not_mem_nil, or_false] at hc
        rcases hc with rfl | rfl | rfl | rfl | rfl | rfl | rfl | rfl <;> assumption) (by simp)
    have e2 := encode_pairBytes [c9, c10, c11, c12]
      (by
        intro c hc
        simp only [List.mem_cons, List.mem_singleton, List.not_mem_nil, or_false] at hc
        rcases hc with rfl | rfl | rfl | rfl <;> assumption) (by simp)
    have e3 := encode_pairBytes [c14, c15, c16, c17]
      (by
        intro c hc
        simp only [List.mem_cons, List.mem_singleton, List.not_mem_nil, or_false] at hc
        rcases hc with rfl | rfl | rfl | rfl <;> assumption) (by simp)
    have e4 := encode_pairBytes [c19, c20, c21, c22]
      (by
        intro c hc
        simp only [List.mem_cons, List.mem_singleton, List.not_mem_nil, or_false] at hc
        rcases hc with rfl | rfl | rfl | rfl <;> assumption) (by simp)
    have e5 := encode_pairBytes [c24, c25, c26, c27, c28, c29, c30, c31, c32, c33, c34, c35]
      (by
        intro c hc
        simp only [List.mem_cons, List.mem_singleton, List.not_mem_nil, or_false] at hc
        rcases hc with rfl | rfl | rfl | rfl | rfl | rfl | rfl | rfl | rfl | rfl | rfl | rfl <;> assumption) (by simp)
    simp only [pairBytes] at e1 e2 e3 e4 e5 hb
    rw [String_eq u _ _ _ _ _ _ _ _ _ _ _ _ _ _ _ _ hb, e1, e2, e3, e4, e5]
    simp [lowerDigit_hyphen]
  refine ⟨u, hp, hstr, ?_⟩
  intro hlow
  rw [hstr]
  have hm := map_lowerDigit_of_lower _ hlow
  simp only [List.map_cons, List.map_nil, List.cons.injEq, and_true] at hm ⊢
  simp only [lowerDigit_hyphen]
  tauto

/-- Counterexample to C2 as stated: `Parse` accepts
`0189DD43-C284-7F4F-806E-E7D238E9BABB`, and `String` of the result is the
lowercase text, not the input. -/
theorem C2_counterexample :
    (goBytes "0189DD43-C284-7F4F-806E-E7D238E9BABB").length = 36 ∧
    (at_ (goBytes "0189DD43-C284-7F4F-806E-E7D238E9BABB") 8 = 0x2d ∧
      at_ (goBytes "0189DD43-C284-7F4F-806E-E7D238E9BABB") 13 = 0x2d ∧
      at_ (goBytes "0189DD43-C284-7F4F-806E-E7D238E9BABB") 18 = 0x2d ∧
      at_ (goBytes "0189DD43-C284-7F4F-806E-E7D238E9BABB") 23 = 0x2d) ∧
    (∀ c ∈ digits36 (goBytes "0189DD43-C284-7F4F-806E-E7D238E9BABB"), isHexDigit c) ∧
    (Parse (goBytes "0189DD43-C284-7F4F-806E-E7D238E9BABB")).2 = none ∧
    (Parse (goBytes "0189DD43-C284-7F4F-806E-E7D238E9BABB")).1.String =
      goBytes "0189dd43-c284-7f4f-806e-e7d238e9babb" ∧
    (Parse (goBytes "0189DD43-C284-7F4F-806E-E7D238E9BABB")).1.String ≠
      goBytes "0189DD43-C284-7F4F-806E-E7D238E9BABB" := by
  decide

/-- Instance of C2 on the string of the test suite. -/
theorem C2_witness :
    (goBytes "0189dd43-c284-7f4f-806e-e7d238e9babb").length = 36 ∧
    (at_ (goBytes "0189dd43-c284-7f4f-806e-e7d238e9babb") 8 = 0x2d ∧
      at_ (goBytes "0189dd43-c284-7f4f-806e-e7d238e9babb") 13 = 0x2d ∧
      at_ (goBytes "0189dd43-c284-7f4f-806e-e7d238e9babb") 18 = 0x2d ∧
      at_ (goBytes "0189dd43-c284-7f4f-806e-e7d238e9babb") 23 = 0x2d) ∧
    (∀ c ∈ digits36 (goBytes "0189dd43-c284-7f4f-806e-e7d238e9babb"), isHexDigit c) ∧
    ∃ u, Parse (goBytes "0189dd43-c284-7f4f-806e-e7d238e9babb") = (u, none) ∧
      u.String = (goBytes "0189dd43-c284-7f4f-806e-e7d238e9babb").map lowerDigit ∧
      ((∀ c ∈ digits36 (goBytes "0189dd43-c284-7f4f-806e-e7d238e9babb"), isLowerHexDigit c) →
        u.String = goBytes "0189dd43-c284-7f4f-806e-e7d238e9babb") :=
  ⟨by decide, by decide, by decide,
    C2_parse_string (goBytes "0189dd43-c284-7f4f-806e-e7d238e9babb") (by decide) (by decide)
      (by decide)⟩

/-- C3 (as amended): for every 32-byte string `s` of hexadecimal digits, `Parse`
succeeds and `ShortString` of the parsed identifier is `s` with every digit
`A-F` replaced by `a-f`; it is exactly `s` when `s` holds only the lowercase
digits `0-9`, `a-f`. -/
theorem C3_parse_shortstring (s : List Byte) (hlen : s.length = 32)
    (hhex : ∀ c ∈ s, isHexDigit c) :
    ∃ u, Parse s = (u, none) ∧ u.ShortString = s.map lowerDigit ∧
      ((∀ c ∈ s, isLowerHexDigit c) → u.ShortString = s) := by
  have hslice : slice s 0 32 = s := by
    simp [slice, ← hlen]
  have hdec := decode_hex s hhex (by omega)
  have hpl : (pairBytes s).length = 16 := by rw [length_pairBytes, hlen]
  have hw : writeAt (List.replicate 16 0) 0 (pairBytes s) = pairBytes s :=
    writeAt_full _ _ (by simp [hpl])
  have hshort : (UUID.zero.write 0 (pairBytes s)).ShortString = s.map lowerDigit := by
    have he := encode_pairBytes s hhex (by omega)
    simp only [UUID.ShortString, UUID.write_bytes, UUID.zero, hw, he]
    exact writeAt_full _ _ (by simp [hlen])
  refine ⟨UUID.zero.write 0 (pairBytes s), ?_, hshort, ?_⟩
  · simp only [Parse, hlen, hslice, hdec, if_true]
  · intro hl
    rw [hshort, map_lowerDigit_of_lower s hl]

/-- Counterexample to C3 as stated: `Parse` accepts
`0189DD43C2847F4F806EE7D238E9BABB`, and `ShortString` of the result is the
lowercase text, not the input. -/
theorem C3_counterexample :
    (goBytes "0189DD43C2847F4F806EE7D238E9BABB").length = 32 ∧
    (∀ c ∈ goBytes "0189DD43C2847F4F806EE7D238E9BABB", isHexDigit c) ∧
    (Parse (goBytes "0189DD43C2847F4F806EE7D238E9BABB")).2 = none ∧
    (Parse (goBytes "0189DD43C2847F4F806EE7D238E9BABB")).1.ShortString =
      goBytes "0189dd43c2847f4f806ee7d238e9babb" ∧
    (Parse (goBytes "0189DD43C2847F4F806EE7D238E9BABB")).1.ShortString ≠
      goBytes "0189DD43C2847F4F806EE7D238E9BABB" := by
  decide

/-- Instance of C3 on the string of the test suite. -/
theorem C3_witness :
    (goBytes "0189dd43c2847f4f806ee7d238e9babb").length = 32 ∧
    (∀ c ∈ goBytes "0189dd43c2847f4f806ee7d238e9babb", isHexDigit c) ∧
    ∃ u, Parse (goBytes "0189dd43c2847f4f806ee7d238e9babb") = (u, none) ∧
      u.ShortString = (goBytes "0189dd43c2847f4f806ee7d238e9babb").map lowerDigit ∧
      ((∀ c ∈ goBytes "0189dd43c2847f4f806ee7d238e9babb", isLowerHexDigit c) →
        u.ShortString = goBytes "0189dd43c2847f4f806ee7d238e9babb") :=
  ⟨by decide, by decide,
    C3_parse_shortstring (goBytes "0189dd43c2847f4f806ee7d238e9babb") (by decide) (by decide)⟩

/-- C4: for every clock reading `ms` and every outcome of the random source,
if `NewV7` returns a nil error then byte 6 of the identifier has high nibble 7
(`uuid[6]>>4 == 7`) and byte 8 has top two bits `10` (`uuid[8]>>6 == 2`). -/
theorem C4_newv7_version_variant (ms : Int) (rd : RandRead) (hok : (NewV7 ms rd).2 = none) :
    (NewV7 ms rd).1.get 6 >>> 4 = 7 ∧ (NewV7 ms rd).1.get 8 >>> 6 = 2 := by
  cases rd with
  | short got h e => simp [NewV7, RandRead.err] at hok
  | full r h =>
    obtain ⟨r0, r1, r2, r3, r4, r5, r6, r7, r8, r9, rfl⟩ := list10 h
    have hb := (NewV7_full ms r0 r1 r2 r3 r4 r5 r6 r7 r8 r9 h).2
    simp only [UUID.get, at_, hb, be48, List.cons_append, List.nil_append,
      List.getD_cons_zero, List.getD_cons_succ]
    exact ⟨version_bits r0, variant_bits r2⟩

/-- Instance of C4: a clock reading and ten random bytes for which `NewV7`
returns a nil error. -/
theorem C4_witness :
    (NewV7 1691000000123 (.full [255, 1, 255, 3, 4, 5, 6, 7, 8, 9] rfl)).2 = none ∧
    (NewV7 1691000000123 (.full [255, 1, 255, 3, 4, 5, 6, 7, 8, 9] rfl)).1.get 6 >>> 4 = 7 ∧
    (NewV7 1691000000123 (.full [255, 1, 255, 3, 4, 5, 6, 7, 8, 9] rfl)).1.get 8 >>> 6 = 2 :=
  ⟨by decide, C4_newv7_version_variant 1691000000123
    (.full [255, 1, 255, 3, 4, 5, 6, 7, 8, 9] rfl) (by decide)⟩

/-- C5: for every clock reading `ms` and every ten random bytes, `TimeFromV7` of
the identifier `NewV7` builds is the instant with `(ms mod 2^48) / 1000` seconds
and `((ms mod 2^48) mod 1000) * 10^6` nanoseconds, that is `ms mod 2^48`
milliseconds after the Unix epoch; it is `ms` itself when `0 <= ms < 2^48`. -/
theorem C5_newv7_time (ms : Int) (r : List Byte) (h : r.length = 10) :
    (NewV7 ms (.full r h)).1.TimeFromV7 =
      ⟨ms % 2 ^ 48 / 1000, ms % 2 ^ 48 % 1000 * 1000000⟩ ∧
    (NewV7 ms (.full r h)).1.TimeFromV7.UnixMilli = ms % 2 ^ 48 ∧
    (0 ≤ ms → ms < 2 ^ 48 → (NewV7 ms (.full r h)).1.TimeFromV7.UnixMilli = ms) := by
  obtain ⟨r0, r1, r2, r3, r4, r5, r6, r7, r8, r9, rfl⟩ := list10 h
  have hb := (NewV7_full ms r0 r1 r2 r3 r4 r5 r6 r7 r8 r9 h).2
  have hM : (ms % 2 ^ 48).toNat < 2 ^ 48 := by omega
  have hmil := be48_millis _ hM _ _ hb
  have hcast : (((ms % 2 ^ 48).toNat : Nat) : Int) = ms % 2 ^ 48 := by omega
  have ht := TimeFromV7_eq (NewV7 ms (.full [r0, r1, r2, r3, r4, r5, r6, r7, r8, r9] h)).1
  rw [hmil, hcast] at ht
  have hu : (NewV7 ms (.full [r0, r1, r2, r3, r4, r5, r6, r7, r8, r9] h)).1.TimeFromV7.UnixMilli
      = ms % 2 ^ 48 := by
    rw [ht]
    simp only [Time.UnixMilli]
    rw [Int.tdiv_eq_ediv (by omega) (by omega)]
    omega
  refine ⟨ht, hu, ?_⟩
  intro h0 h1
  rw [hu]
  omega

/-- Instance of C5 at the clock reading 1691000000123. -/
theorem C5_witness :
    ([255, 1, 255, 3, 4, 5, 6, 7, 8, 9] : List Byte).length = 10 ∧
    (NewV7 1691000000123 (.full [255, 1, 255, 3, 4, 5, 6, 7, 8, 9] rfl)).1.TimeFromV7 =
      ⟨1691000000123 % 2 ^ 48 / 1000, 1691000000123 % 2 ^ 48 % 1000 * 1000000⟩ ∧
    (NewV7 1691000000123 (.full [255, 1, 255, 3, 4, 5, 6, 7, 8, 9] rfl)).1.TimeFromV7.UnixMilli =
      1691000000123 % 2 ^ 48 ∧
    (0 ≤ (1691000000123 : Int) → (1691000000123 : Int) < 2 ^ 48 →
      (NewV7 1691000000123 (.full [255, 1, 255, 3, 4, 5, 6, 7, 8, 9] rfl)).1.TimeFromV7.UnixMilli =
        1691000000123) :=
  ⟨rfl, C5_newv7_time 1691000000123 [255, 1, 255, 3, 4, 5, 6, 7, 8, 9] rfl⟩

/-- C6 (as amended): for every input string whose length in bytes (Go's
`len(s)`) is neither 32 nor 36, `Parse` fails with the `InvalidFormat` error and
returns the all-zero identifier. -/
theorem C6_parse_bad_length (s : List Byte) (h32 : s.length ≠ 32) (h36 : s.length ≠ 36) :
    Parse s = (UUID.zero, some Error.InvalidFormat) := by
  unfold Parse
  simp only [h32, h36, if_false]

/-- Counterexample to C6 as stated: a string of 35 characters, the first of
which takes two bytes in UTF-8, is 36 bytes long; `Parse` takes the 36-byte
path and fails with the hex decode error `InvalidByteError(0xc3)`, not with
`InvalidFormat`. -/
theorem C6_counterexample :
    ("é0189dd-c284-7f4f-806e-e7d238e9babb" : String).length = 35 ∧
    Parse (goBytes "é0189dd-c284-7f4f-806e-e7d238e9babb") =
      (UUID.zero, some (Error.InvalidByteError 0xc3)) := by
  decide

/-- Instance of C6 on a string of 35 bytes. -/
theorem C6_witness :
    (goBytes "0189dd43-c284-7f4f-806e-e7d238e9bab").length ≠ 32 ∧
    (goBytes "0189dd43-c284-7f4f-806e-e7d238e9bab").length ≠ 36 ∧
    Parse (goBytes "0189dd43-c284-7f4f-806e-e7d238e9bab") =
      (UUID.zero, some Error.InvalidFormat) :=
  ⟨by decide, by decide,
    C6_parse_bad_length (goBytes "0189dd43-c284-7f4f-806e-e7d238e9bab") (by decide) (by decide)⟩

/-- C7: for every 36-byte input in which at least one of the positions 8, 13,
18, 23 is not `-`, `Parse` fails with the `InvalidFormat` error and the all-zero
identifier, whatever the other positions hold. -/
theorem C7_parse_missing_hyphen (s : List Byte) (hlen : s.length = 36)
    (hh : at_ s 8 ≠ 0x2d ∨ at_ s 13 ≠ 0x2d ∨ at_ s 18 ≠ 0x2d ∨ at_ s 23 ≠ 0x2d) :
    Parse s = (UUID.zero, some Error.InvalidFormat) := by
  simp only [Parse]
  rw [if_neg (show ¬ s.length = 32 by omega), if_pos hlen, if_pos hh]

/-- Instance of C7: position 8 holds `_` and positions 0-7 are not hexadecimal. -/
theorem C7_witness :
    (goBytes "zzzzzzzz_c284-7f4f-806e-e7d238e9babb").length = 36 ∧
    (at_ (goBytes "zzzzzzzz_c284-7f4f-806e-e7d238e9babb") 8 ≠ 0x2d ∨
      at_ (goBytes "zzzzzzzz_c284-7f4f-806e-e7d238e9babb") 13 ≠ 0x2d ∨
      at_ (goBytes "zzzzzzzz_c284-7f4f-806e-e7d238e9babb") 18 ≠ 0x2d ∨
      at_ (goBytes "zzzzzzzz_c284-7f4f-806e-e7d238e9babb") 23 ≠ 0x2d) ∧
    Parse (goBytes "zzzzzzzz_c284-7f4f-806e-e7d238e9babb") =
      (UUID.zero, some Error.InvalidFormat) :=
  ⟨by decide, by decide,
    C7_parse_missing_hyphen (goBytes "zzzzzzzz_c284-7f4f-806e-e7d238e9babb") (by decide)
      (by decide)⟩

/-- C8: for every 32-byte input containing a byte that is not a hexadecimal
digit, and for every 36-byte input with `-` at positions 8, 13, 18, 23 and a
non-hexadecimal byte at another position, `Parse` fails with
`hex.InvalidByteError(b)` for a non-hexadecimal byte `b` of the input, and
returns the all-zero identifier. -/
theorem C8_parse_bad_digit (s : List Byte) :
    (s.length = 32 → (∃ c ∈ s, ¬ isHexDigit c) →
      ∃ b, b ∈ s ∧ ¬ isHexDigit b ∧ Parse s = (UUID.zero, some (Error.InvalidByteError b))) ∧
    (s.length = 36 →
      (at_ s 8 = 0x2d ∧ at_ s 13 = 0x2d ∧ at_ s 18 = 0x2d ∧ at_ s 23 = 0x2d) →
      (∃ c ∈ digits36 s, ¬ isHexDigit c) →
      ∃ b, b ∈ digits36 s ∧ ¬ isHexDigit b ∧
        Parse s = (UUID.zero, some (Error.InvalidByteError b))) := by
  constructor
  · intro hlen hbad
    have hslice : slice s 0 32 = s := by simp [slice, ← hlen]
    obtain ⟨b, hb, hnb, d, hd⟩ := decode_bad s hbad
    refine ⟨b, hb, hnb, ?_⟩
    simp only [Parse, hlen, hslice, hd, if_true]
  · intro hlen hh hbad
    simp only [Parse]
    rw [if_neg (show ¬ s.length = 32 by omega), if_pos hlen,
      if_neg (show ¬ (at_ s 8 ≠ 0x2d ∨ at_ s 13 ≠ 0x2d ∨ at_ s 18 ≠ 0x2d ∨ at_ s 23 ≠ 0x2d) by
        simp [hh])]
    by_cases h1 : ∀ c ∈ slice s 0 8, isHexDigit c
    · rw [decode_hex _ h1 (by simp [slice, hlen])]
      by_cases h2 : ∀ c ∈ slice s 9 13, isHexDigit c
      · rw [decode_hex _ h2 (by simp [slice, hlen])]
        by_cases h3 : ∀ c ∈ slice s 14 18, isHexDigit c
        · rw [decode_hex _ h3 (by simp [slice, hlen])]
          by_cases h4 : ∀ c ∈ slice s 19 23, isHexDigit c
          · rw [decode_hex _ h4 (by simp [slice, hlen])]
            by_cases h5 : ∀ c ∈ slice s 24 36, isHexDigit c
            · exfalso
              obtain ⟨c, hc, hnc⟩ := hbad
              simp only [digits36, List.mem_append] at hc
              rcases hc with (((hc | hc) | hc) | hc) | hc
              · exact hnc (h1 c hc)
              · exact hnc (h2 c hc)
              · exact hnc (h3 c hc)
              · exact hnc (h4 c hc)
              · exact hnc (h5 c hc)
            · obtain ⟨b, hb, hnb, d, hd⟩ := decode_bad _ (by simpa using h5)
              exact ⟨b, by simp [digits36, hb], hnb, by rw [hd]⟩
          · obtain ⟨b, hb, hnb, d, hd⟩ := decode_bad _ (by simpa using h4)
            exact ⟨b, by simp [digits36, hb], hnb, by rw [hd]⟩
        · obtain ⟨b, hb, hnb, d, hd⟩ := decode_bad _ (by simpa using h3)
          exact ⟨b, by simp [digits36, hb], hnb, by rw [hd]⟩
      · obtain ⟨b, hb, hnb, d, hd⟩ := decode_bad _ (by simpa using h2)
        exact ⟨b, by simp [digits36, hb], hnb, by rw [hd]⟩
    · obtain ⟨b, hb, hnb, d, hd⟩ := decode_bad _ (by simpa using h1)
      exact ⟨b, by simp [digits36, hb], hnb, by rw [hd]⟩

/-- Instance of C8 on a 32-byte and on a 36-byte input. -/
theorem C8_witness :
    (∃ b, b ∈ goBytes "0189dd43c2847f4f806ee7d238e9babg" ∧ ¬ isHexDigit b ∧
      Parse (goBytes "0189dd43c2847f4f806ee7d238e9babg") =
        (UUID.zero, some (Error.InvalidByteError b))) ∧
    (∃ b, b ∈ digits36 (goBytes "0189dd43-c284-7f4f-80xe-e7d238e9babb") ∧ ¬ isHexDigit b ∧
      Parse (goBytes "0189dd43-c284-7f4f-80xe-e7d238e9babb") =
        (UUID.zero, some (Error.InvalidByteError b))) :=
  ⟨(C8_parse_bad_digit (goBytes "0189dd43c2847f4f806ee7d238e9babg")).1 (by decide)
      ⟨0x67, by decide, by decide⟩,
    (C8_parse_bad_digit (goBytes "0189dd43-c284-7f4f-80xe-e7d238e9babb")).2 (by decide)
      (by decide) ⟨0x78, by decide, by decide⟩⟩

/-- C9: for every string of 32 hexadecimal digits, and for every 36-byte string
with `-` at positions 8, 13, 18, 23 and hexadecimal digits elsewhere, `Parse`
succeeds and returns the 16 bytes denoted by the consecutive digit pairs
(`16 * first + second`), hyphens skipped; no condition on version or variant
bits is involved. -/
theorem C9_parse_decodes (s : List Byte) :
    (s.length = 32 → (∀ c ∈ s, isHexDigit c) →
      ∃ u, Parse s = (u, none) ∧ u.bytes = pairBytes s) ∧
    (s.length = 36 →
      (at_ s 8 = 0x2d ∧ at_ s 13 = 0x2d ∧ at_ s 18 = 0x2d ∧ at_ s 23 = 0x2d) →
      (∀ c ∈ digits36 s, isHexDigit c) →
      ∃ u, Parse s = (u, none) ∧ u.bytes = pairBytes (digits36 s)) := by
  constructor
  · intro hlen hhex
    have hslice : slice s 0 32 = s := by simp [slice, ← hlen]
    have hdec := decode_hex s hhex (by omega)
    have hpl : (pairBytes s).length = 16 := by rw [length_pairBytes, hlen]
    refine ⟨UUID.zero.write 0 (pairBytes s), ?_, ?_⟩
    · simp only [Parse, hlen, hslice, hdec, if_true]
    · rw [UUID.write_bytes]
      exact writeAt_full _ _ (by simp [UUID.zero, hpl])
  · intro hlen hh hhex
    exact Parse36 s hlen hh hhex

/-- Instance of C9 on two inputs whose version nibble is 1 and whose variant
bits are `11`. -/
theorem C9_witness :
    (∃ u, Parse (goBytes "0189DD43c2841f4fc06ee7d238e9babb") = (u, none) ∧
      u.bytes = pairBytes (goBytes "0189DD43c2841f4fc06ee7d238e9babb")) ∧
    (∃ u, Parse (goBytes "0189dd43-c284-1f4f-c06e-E7D238E9BABB") = (u, none) ∧
      u.bytes = pairBytes (digits36 (goBytes "0189dd43-c284-1f4f-c06e-E7D238E9BABB"))) :=
  ⟨(C9_parse_decodes (goBytes "0189DD43c2841f4fc06ee7d238e9babb")).1 (by decide) (by decide),
    (C9_parse_decodes (goBytes "0189dd43-c284-1f4f-c06e-E7D238E9BABB")).2 (by decide)
      (by decide) (by decide)⟩

/-- C10 (failing inputs): `UUIDV7FromObjectID` does not reject hexadecimal
strings of the wrong length. The ten digits `0123456789` yield an identifier
and a nil error; the empty string and the eight digits `01234567` make the call
panic instead of returning an error. -/
theorem C10_wrong_length_inputs :
    UUIDV7FromObjectID (goBytes "0123456789") =
      .returns (⟨[0x00, 0x04, 0x71, 0xc7, 0x1a, 0x58, 0x70, 0x89, 0x80, 0, 0, 0, 0, 0, 0, 0], rfl⟩,
        none) ∧
    UUIDV7FromObjectID (goBytes "") = .panics ∧
    UUIDV7FromObjectID (goBytes "01234567") = .panics := by
  decide

/-- C11: for every 24-byte string `h` of hexadecimal digits, decoding to the
12 legacy bytes `L`, `UUIDV7FromObjectID(h)` returns without panic and with a nil
error the identifier whose bytes 0-5 are the big-endian 48-bit encoding of
`1000 * S`, `S` the big-endian 32-bit value of `L[0..3]` (`1000 * S < 2^48`, so
nothing is truncated), whose byte 6 is `0x70`, byte 7 is `L[4]`, byte 8 is
`0x80` and bytes 9-15 are `L[5..11]`. -/
theorem C11_fromobjectid_layout (h : List Byte) (hlen : h.length = 24)
    (hhex : ∀ c ∈ h, isHexDigit c) :
    hex.DecodeString h = (pairBytes h, none) ∧ (pairBytes h).length = 12 ∧
    1000 * legacySeconds (pairBytes h) < 2 ^ 48 ∧
    ∃ u, UUIDV7FromObjectID h = .returns (u, none) ∧
      slice u.bytes 0 6 = be48 (1000 * legacySeconds (pairBytes h)) ∧
      u.millis = 1000 * legacySeconds (pairBytes h) ∧
      u.get 6 = 0x70 ∧ u.get 7 = at_ (pairBytes h) 4 ∧ u.get 8 = 0x80 ∧
      slice u.bytes 9 16 = slice (pairBytes h) 5 12 := by
  have hdec := decode_hex h hhex (by omega)
  have hl : (pairBytes h).length = 12 := by rw [length_pairBytes, hlen]
  obtain ⟨l0, l1, l2, l3, l4, l5, l6, l7, l8, l9, l10, l11, hp⟩ := list12 hl
  have hdec2 : hex.DecodeString h = ([l0, l1, l2, l3, l4, l5, l6, l7, l8, l9, l10, l11], none) := by
    rw [← hp]
    exact hdec
  obtain ⟨u, hret, hu⟩ := fromObjectID_decoded h l0 l1 l2 l3 l4 l5 l6 l7 l8 l9 l10 l11 hdec2
  have hS : legacySeconds (pairBytes h) = be32val l0 l1 l2 l3 := by
    rw [hp]
    rfl
  have h0 := l0.isLt; have h1 := l1.isLt; have h2 := l2.isLt; have h3 := l3.isLt
  have hlt : 1000 * be32val l0 l1 l2 l3 < 2 ^ 48 := by
    unfold be32val
    omega
  refine ⟨hdec, hl, by rw [hS]; exact hlt, u, hret, ?_⟩
  rw [hS]
  refine ⟨?_, be48_millis _ hlt u _ hu, ?_, ?_, ?_, ?_⟩
  · rw [hu]; rfl
  · rw [UUID.get, hu]; rfl
  · rw [UUID.get, hu, hp]; rfl
  · rw [UUID.get, hu]; rfl
  · rw [hu, hp]; rfl

/-- Instance of C11 on the object id of the test suite. -/
theorem C11_witness :
    (goBytes "63ede45a8d0137fc1b631091").length = 24 ∧
    (∀ c ∈ goBytes "63ede45a8d0137fc1b631091", isHexDigit c) ∧
    hex.DecodeString (goBytes "63ede45a8d0137fc1b631091") =
      (pairBytes (goBytes "63ede45a8d0137fc1b631091"), none) ∧
    (pairBytes (goBytes "63ede45a8d0137fc1b631091")).length = 12 ∧
    1000 * legacySeconds (pairBytes (goBytes "63ede45a8d0137fc1b631091")) < 2 ^ 48 ∧
    ∃ u, UUIDV7FromObjectID (goBytes "63ede45a8d0137fc1b631091") = .returns (u, none) ∧
      slice u.bytes 0 6 =
        be48 (1000 * legacySeconds (pairBytes (goBytes "63ede45a8d0137fc1b631091"))) ∧
      u.millis = 1000 * legacySeconds (pairBytes (goBytes "63ede45a8d0137fc1b631091")) ∧
      u.get 6 = 0x70 ∧ u.get 7 = at_ (pairBytes (goBytes "63ede45a8d0137fc1b631091")) 4 ∧
      u.get 8 = 0x80 ∧
      slice u.bytes 9 16 = slice (pairBytes (goBytes "63ede45a8d0137fc1b631091")) 5 12 :=
  ⟨by decide, by decide,
    C11_fromobjectid_layout (goBytes "63ede45a8d0137fc1b631091") (by decide) (by decide)⟩

/-- C12 (as amended): for every identifier, with `m` the 48-bit big-endian value
of bytes 0-5, the whole-second value of `TimeFromV7` is `m / 1000`, and the
big-endian 32-bit number in bytes 0-3 of `ObjectID` is `(m / 1000) mod 2^32`; it
equals `m / 1000` whenever `m / 1000 < 2^32`. -/
theorem C12_objectid_seconds (uuid : UUID) :
    uuid.TimeFromV7.Unix = ((uuid.millis / 1000 : Nat) : Int) ∧
    legacySeconds uuid.ObjectID = uuid.millis / 1000 % 2 ^ 32 ∧
    (uuid.millis / 1000 < 2 ^ 32 → legacySeconds uuid.ObjectID = uuid.millis / 1000) := by
  have hcast : (uuid.millis : Int) / 1000 = ((uuid.millis / 1000 : Nat) : Int) := by
    push_cast
    rfl
  have hsec : legacySeconds uuid.ObjectID = uuid.millis / 1000 % 2 ^ 32 := by
    rw [ObjectID_layout, legacySeconds_putUint32, hcast, toU32_natCast]
    exact Nat.mod_mod _ _
  refine ⟨?_, hsec, ?_⟩
  · rw [TimeFromV7_eq, Time.Unix, hcast]
  · intro hlt
    rw [hsec, Nat.mod_eq_of_lt hlt]

/-- Counterexample to C12 as stated: with bytes 0-5 all `0xff`, `m = 2^48 - 1`,
the whole-second value of `TimeFromV7` is 281474976710 and bytes 0-3 of
`ObjectID` hold 2302102470, its low 32 bits. -/
theorem C12_counterexample :
    (UUID.mk [0xff, 0xff, 0xff, 0xff, 0xff, 0xff, 0x70, 0, 0x80, 0, 0, 0, 0, 0, 0, 0] rfl).millis
      = 281474976710655 ∧
    (UUID.mk [0xff, 0xff, 0xff, 0xff, 0xff, 0xff, 0x70, 0, 0x80, 0, 0, 0, 0, 0, 0, 0]
      rfl).TimeFromV7.Unix = 281474976710 ∧
    legacySeconds (UUID.mk [0xff, 0xff, 0xff, 0xff, 0xff, 0xff, 0x70, 0, 0x80, 0, 0, 0, 0, 0, 0, 0]
      rfl).ObjectID = 2302102470 ∧
    legacySeconds (UUID.mk [0xff, 0xff, 0xff, 0xff, 0xff, 0xff, 0x70, 0, 0x80, 0, 0, 0, 0, 0, 0, 0]
      rfl).ObjectID ≠
      (UUID.mk [0xff, 0xff, 0xff, 0xff, 0xff, 0xff, 0x70, 0, 0x80, 0, 0, 0, 0, 0, 0, 0]
        rfl).millis / 1000 := by
  decide

/-- Instance of C12 on the identifier of the test suite, whose seconds fit 32 bits. -/
theorem C12_witness :
    (UUID.mk [0x01, 0x89, 0xdd, 0x43, 0xc2, 0x84, 0x7f, 0x4f, 0x80, 0x6e, 0xe7, 0xd2, 0x38, 0xe9,
      0xba, 0xbb] rfl).millis / 1000 < 2 ^ 32 ∧
    legacySeconds (UUID.mk [0x01, 0x89, 0xdd, 0x43, 0xc2, 0x84, 0x7f, 0x4f, 0x80, 0x6e, 0xe7, 0xd2,
      0x38, 0xe9, 0xba, 0xbb] rfl).ObjectID =
      (UUID.mk [0x01, 0x89, 0xdd, 0x43, 0xc2, 0x84, 0x7f, 0x4f, 0x80, 0x6e, 0xe7, 0xd2, 0x38, 0xe9,
        0xba, 0xbb] rfl).millis / 1000 :=
  ⟨by decide, (C12_objectid_seconds (UUID.mk [0x01, 0x89, 0xdd, 0x43, 0xc2, 0x84, 0x7f, 0x4f,
    0x80, 0x6e, 0xe7, 0xd2, 0x38, 0xe9, 0xba, 0xbb] rfl)).2.2 (by decide)⟩

/-- C13: for every identifier, `ObjectID` returns 12 bytes, its byte 4 is the
identifier's byte 7 and its bytes 5-11 are the identifier's bytes 9-15 in
order; two identifiers that agree on byte 7 and bytes 9-15 have the same
`ObjectID` bytes 4-11, whatever their bytes 0-6 and 8. -/
theorem C13_objectid_tag_bytes (uuid : UUID) :
    uuid.ObjectID.length = 12 ∧ at_ uuid.ObjectID 4 = uuid.get 7 ∧
    slice uuid.ObjectID 5 12 = slice uuid.bytes 9 16 ∧
    (∀ v : UUID, v.get 7 = uuid.get 7 → slice v.bytes 9 16 = slice uuid.bytes 9 16 →
      slice v.ObjectID 4 12 = slice uuid.ObjectID 4 12) := by
  obtain ⟨hlen, h4, h5, h412⟩ := ObjectID_tail uuid
  refine ⟨hlen, h4, h5, ?_⟩
  intro v hv7 hv9
  rw [h412, (ObjectID_tail v).2.2.2, hv7, hv9]

/-- Instance of C13: two identifiers that differ in bytes 0-6 and 8 only. -/
theorem C13_witness :
    (UUID.mk [0x01, 0x89, 0xdd, 0x43, 0xc2, 0x84, 0x7f, 0x4f, 0x80, 0x6e, 0xe7, 0xd2, 0x38, 0xe9,
      0xba, 0xbb] rfl).get 7 =
      (UUID.mk [0xff, 0xfe, 0xfd, 0xfc, 0xfb, 0xfa, 0x11, 0x4f, 0x3c, 0x6e, 0xe7, 0xd2, 0x38,
        0xe9, 0xba, 0xbb] rfl).get 7 ∧
    slice (UUID.mk [0x01, 0x89, 0xdd, 0x43, 0xc2, 0x84, 0x7f, 0x4f, 0x80, 0x6e, 0xe7, 0xd2, 0x38,
      0xe9, 0xba, 0xbb] rfl).ObjectID 4 12 =
      slice (UUID.mk [0xff, 0xfe, 0xfd, 0xfc, 0xfb, 0xfa, 0x11, 0x4f, 0x3c, 0x6e, 0xe7, 0xd2,
        0x38, 0xe9, 0xba, 0xbb] rfl).ObjectID 4 12 :=
  ⟨by decide,
    (C13_objectid_tag_bytes (UUID.mk [0xff, 0xfe, 0xfd, 0xfc, 0xfb, 0xfa, 0x11, 0x4f, 0x3c, 0x6e,
      0xe7, 0xd2, 0x38, 0xe9, 0xba, 0xbb] rfl)).2.2.2
      (UUID.mk [0x01, 0x89, 0xdd, 0x43, 0xc2, 0x84, 0x7f, 0x4f, 0x80, 0x6e, 0xe7, 0xd2, 0x38, 0xe9,
        0xba, 0xbb] rfl) (by decide) (by decide)⟩

/-- C14: for every identifier, with `m` the sum over `i` in 0..5 of
`id[i] * 256^(5-i)`, `m < 2^48` and `TimeFromV7` is the instant with `m / 1000`
seconds and `(m mod 1000) * 1000000` nanoseconds after the Unix epoch; two
identifiers that agree on bytes 0-5 have the same `TimeFromV7`. -/
theorem C14_timefromv7 (uuid : UUID) :
    uuid.millis = ∑ i in Finset.range 6, (uuid.get i).val * 256 ^ (5 - i) ∧
    uuid.millis < 2 ^ 48 ∧
    uuid.TimeFromV7 =
      ⟨((uuid.millis / 1000 : Nat) : Int), ((uuid.millis % 1000 * 1000000 : Nat) : Int)⟩ ∧
    (∀ v : UUID, slice v.bytes 0 6 = slice uuid.bytes 0 6 → v.TimeFromV7 = uuid.TimeFromV7) := by
  refine ⟨?_, millis_lt uuid, ?_, ?_⟩
  · simp only [Finset.sum_range_succ, Finset.sum_range_zero, UUID.millis]
    norm_num
  · rw [TimeFromV7_eq]
    push_cast
    rfl
  · intro v hv
    have hm : v.millis = uuid.millis := by
      obtain ⟨b0, b1, b2, b3, b4, b5, b6, b7, b8, b9, b10, b11, b12, b13, b14, b15, hb⟩ :=
        uuid.exists_bytes
      obtain ⟨c0, c1, c2, c3, c4, c5, c6, c7, c8, c9, c10, c11, c12, c13, c14, c15, hc⟩ :=
        v.exists_bytes
      rw [hb, hc] at hv
      simp only [slice, List.drop, List.take, Nat.sub_zero, List.cons.injEq, and_true] at hv
      obtain ⟨e0, e1, e2, e3, e4, e5⟩ := hv
      simp only [UUID.millis, UUID.get, at_, hb, hc, List.getD_cons_zero, List.getD_cons_succ,
        e0, e1, e2, e3, e4, e5]
    rw [TimeFromV7_eq, TimeFromV7_eq, hm]

/-- Instance of C14: two identifiers that differ in bytes 6-15 only. -/
theorem C14_witness :
    slice (UUID.mk [0x01, 0x89, 0xdd, 0x43, 0xc2, 0x84, 0, 1, 2, 3, 4, 5, 6, 7, 8, 9] rfl).bytes 0 6
      = slice (UUID.mk [0x01, 0x89, 0xdd, 0x43, 0xc2, 0x84, 0x7f, 0x4f, 0x80, 0x6e, 0xe7, 0xd2,
        0x38, 0xe9, 0xba, 0xbb] rfl).bytes 0 6 ∧
    (UUID.mk [0x01, 0x89, 0xdd, 0x43, 0xc2, 0x84, 0, 1, 2, 3, 4, 5, 6, 7, 8, 9] rfl).TimeFromV7 =
      (UUID.mk [0x01, 0x89, 0xdd, 0x43, 0xc2, 0x84, 0x7f, 0x4f, 0x80, 0x6e, 0xe7, 0xd2, 0x38, 0xe9,
        0xba, 0xbb] rfl).TimeFromV7 :=
  ⟨by decide,
    (C14_timefromv7 (UUID.mk [0x01, 0x89, 0xdd, 0x43, 0xc2, 0x84, 0x7f, 0x4f, 0x80, 0x6e, 0xe7,
      0xd2, 0x38, 0xe9, 0xba, 0xbb] rfl)).2.2.2
      (UUID.mk [0x01, 0x89, 0xdd, 0x43, 0xc2, 0x84, 0, 1, 2, 3, 4, 5, 6, 7, 8, 9] rfl)
      (by decide)⟩

/-- C15 (as amended): whenever the random source stores fewer than the ten
requested bytes and returns an error, `NewV7` returns that error together with
the identifier as filled so far: bytes 0-5 hold the big-endian 48-bit
timestamp, then come the bytes the source did store, then zeros; the version
and variant tags are not written. -/
theorem C15_newv7_error_value (ms : Int) (got : List Byte) (h : got.length < 10) (e : Error) :
    (NewV7 ms (.short got h e)).2 = some e ∧
    (NewV7 ms (.short got h e)).1.bytes =
      be48 (ms % 2 ^ 48).toNat ++ got ++ List.replicate (10 - got.length) 0 ∧
    (NewV7 ms (.short got h e)).1.millis = (ms % 2 ^ 48).toNat :=
  ⟨(NewV7_short ms got h e).1, (NewV7_short ms got h e).2,
    be48_millis _ (by omega) _ _ (by rw [(NewV7_short ms got h e).2, List.append_assoc])⟩

/-- Counterexample to C15 as stated: at the clock reading 1691000000123, a source
that stores two bytes and fails makes `NewV7` return the error with the
identifier `0189b7744e7b-abcd-0000...`, which is not the zero value. -/
theorem C15_counterexample :
    (NewV7 1691000000123 (.short [0xab, 0xcd] (by decide) (Error.ReadError 1))).2 =
      some (Error.ReadError 1) ∧
    (NewV7 1691000000123 (.short [0xab, 0xcd] (by decide) (Error.ReadError 1))).1.bytes =
      [0x01, 0x89, 0xb7, 0x74, 0x4e, 0x7b, 0xab, 0xcd, 0, 0, 0, 0, 0, 0, 0, 0] ∧
    (NewV7 1691000000123 (.short [0xab, 0xcd] (by decide) (Error.ReadError 1))).1 ≠ UUID.zero := by
  decide

/-- Instance of C15 on the same failed read. -/
theorem C15_witness :
    ([0xab, 0xcd] : List Byte).length < 10 ∧
    (NewV7 1691000000123 (.short [0xab, 0xcd] (by decide) (Error.ReadError 1))).2 =
      some (Error.ReadError 1) ∧
    (NewV7 1691000000123 (.short [0xab, 0xcd] (by decide) (Error.ReadError 1))).1.bytes =
      be48 ((1691000000123 : Int) % 2 ^ 48).toNat ++ [0xab, 0xcd] ++
        List.replicate (10 - ([0xab, 0xcd] : List Byte).length) 0 ∧
    (NewV7 1691000000123 (.short [0xab, 0xcd] (by decide) (Error.ReadError 1))).1.millis =
      ((1691000000123 : Int) % 2 ^ 48).toNat :=
  ⟨by decide, C15_newv7_error_value 1691000000123 [0xab, 0xcd] (by decide) (Error.ReadError 1)⟩

/-- C16: for every identifier, `String` returns 36 bytes with `-` at indices 8,
13, 18 and 23; the other 32 bytes are lowercase hexadecimal digits, and read
as consecutive digit pairs they denote bytes 0..15 of the identifier in order. -/
theorem C16_string_layout (uuid : UUID) :
    uuid.String.length = 36 ∧
    (at_ uuid.String 8 = 0x2d ∧ at_ uuid.String 13 = 0x2d ∧ at_ uuid.String 18 = 0x2d ∧
      at_ uuid.String 23 = 0x2d) ∧
    (∀ c ∈ digits36 uuid.String, isLowerHexDigit c) ∧
    (digits36 uuid.String).length = 32 ∧
    pairBytes (digits36 uuid.String) = uuid.bytes := by
  obtain ⟨hlen, hh, hd⟩ := String_layout uuid
  refine ⟨hlen, hh, ?_, ?_, ?_⟩
  · rw [hd]
    exact encode_lower uuid.bytes
  · rw [hd, length_encode, uuid.size]
  · rw [hd, pairBytes_encode]

/-- C17: for every identifier `u`, `ShortString(u)` is 32 bytes, each a lowercase
hexadecimal digit, and `Parse(ShortString(u))` returns `u` with a nil error. -/
theorem C17_shortstring_parse (uuid : UUID) :
    uuid.ShortString.length = 32 ∧
    (∀ c ∈ uuid.ShortString, isLowerHexDigit c) ∧
    Parse uuid.ShortString = (uuid, none) := by
  have hlen : uuid.ShortString.length = 32 := by
    rw [ShortString_eq, length_encode, uuid.size]
  refine ⟨hlen, ?_, ?_⟩
  · rw [ShortString_eq]
    exact encode_lower uuid.bytes
  · have hslice : slice uuid.ShortString 0 32 = uuid.ShortString := by
      simp [slice, ← hlen]
    simp only [Parse]
    rw [if_pos hlen, hslice, ShortString_eq, decode_encode]
    simp only [Prod.mk.injEq, and_true]
    apply UUID.ext_bytes
    rw [UUID.write_bytes]
    exact writeAt_full _ _ (by rw [uuid.size]; rfl)

/-- C18: for clock readings `0 <= ms1 < ms2 < 2^48` and any two reads of ten
random bytes, both calls of `NewV7` return a nil error and the identifier built
at `ms1` is strictly smaller than the one built at `ms2` in byte-wise
lexicographic order. -/
theorem C18_time_sortable (ms1 ms2 : Int) (r1 r2 : List Byte) (h1 : r1.length = 10)
    (h2 : r2.length = 10) (h0 : 0 ≤ ms1) (hlt : ms1 < ms2) (hhi : ms2 < 2 ^ 48) :
    (NewV7 ms1 (.full r1 h1)).2 = none ∧ (NewV7 ms2 (.full r2 h2)).2 = none ∧
    lexLt (NewV7 ms1 (.full r1 h1)).1.bytes (NewV7 ms2 (.full r2 h2)).1.bytes = true := by
  obtain ⟨a0, a1, a2, a3, a4, a5, a6, a7, a8, a9, rfl⟩ := list10 h1
  obtain ⟨c0, c1, c2, c3, c4, c5, c6, c7, c8, c9, rfl⟩ := list10 h2
  obtain ⟨e1, hb1⟩ := NewV7_full ms1 a0 a1 a2 a3 a4 a5 a6 a7 a8 a9 h1
  obtain ⟨e2, hb2⟩ := NewV7_full ms2 c0 c1 c2 c3 c4 c5 c6 c7 c8 c9 h2
  refine ⟨e1, e2, ?_⟩
  rw [hb1, hb2]
  have hm1 : ms1 % 2 ^ 48 = ms1 := Int.emod_eq_of_lt h0 (by omega)
  have hm2 : ms2 % 2 ^ 48 = ms2 := Int.emod_eq_of_lt (by omega) hhi
  rw [hm1, hm2]
  exact lexLt_be48 _ _ _ _ (by omega) (by omega)

/-- Instance of C18: consecutive milliseconds, the earlier call drawing the
largest random bytes and the later one the smallest. -/
theorem C18_witness :
    ([0xff, 0xff, 0xff, 0xff, 0xff, 0xff, 0xff, 0xff, 0xff, 0xff] : List Byte).length = 10 ∧
    ([0, 0, 0, 0, 0, 0, 0, 0, 0, 0] : List Byte).length = 10 ∧
    (0 : Int) ≤ 1691000000123 ∧ (1691000000123 : Int) < 1691000000124 ∧
    (1691000000124 : Int) < 2 ^ 48 ∧
    (NewV7 1691000000123
      (.full [0xff, 0xff, 0xff, 0xff, 0xff, 0xff, 0xff, 0xff, 0xff, 0xff] rfl)).2 = none ∧
    (NewV7 1691000000124 (.full [0, 0, 0, 0, 0, 0, 0, 0, 0, 0] rfl)).2 = none ∧
    lexLt
      (NewV7 1691000000123
        (.full [0xff, 0xff, 0xff, 0xff, 0xff, 0xff, 0xff, 0xff, 0xff, 0xff] rfl)).1.bytes
      (NewV7 1691000000124 (.full [0, 0, 0, 0, 0, 0, 0, 0, 0, 0] rfl)).1.bytes = true :=
  ⟨rfl, rfl, by decide, by decide, by decide,
    C18_time_sortable 1691000000123 1691000000124
      [0xff, 0xff, 0xff, 0xff, 0xff, 0xff, 0xff, 0xff, 0xff, 0xff] [0, 0, 0, 0, 0, 0, 0, 0, 0, 0]
      rfl rfl (by decide) (by decide) (by decide)⟩

/-- C19: when the random source delivers ten bytes `r`, `NewV7` returns a nil
error and an identifier whose byte 6 has the low nibble of `r[0]`, whose byte 7
is `r[1]`, whose byte 8 has the low six bits of `r[2]`, and whose bytes 9-15 are
`r[3..9]`. -/
theorem C19_newv7_keeps_random (ms : Int) (r : List Byte) (h : r.length = 10) :
    (NewV7 ms (.full r h)).2 = none ∧
    (NewV7 ms (.full r h)).1.get 6 &&& 0x0f = at_ r 0 &&& 0x0f ∧
    (NewV7 ms (.full r h)).1.get 7 = at_ r 1 ∧
    (NewV7 ms (.full r h)).1.get 8 &&& 0x3f = at_ r 2 &&& 0x3f ∧
    slice (NewV7 ms (.full r h)).1.bytes 9 16 = slice r 3 10 := by
  obtain ⟨r0, r1, r2, r3, r4, r5, r6, r7, r8, r9, rfl⟩ := list10 h
  obtain ⟨e, hb⟩ := NewV7_full ms r0 r1 r2 r3 r4 r5 r6 r7 r8 r9 h
  refine ⟨e, ?_, ?_, ?_, ?_⟩
  · rw [UUID.get, hb]
    exact version_keeps_low r0
  · rw [UUID.get, hb]
    rfl
  · rw [UUID.get, hb]
    exact variant_keeps_low r2
  · rw [hb]
    rfl

/-- Instance of C19 at the clock reading 1691000000123. -/
theorem C19_witness :
    ([0xa5, 1, 0xff, 3, 4, 5, 6, 7, 8, 9] : List Byte).length = 10 ∧
    (NewV7 1691000000123 (.full [0xa5, 1, 0xff, 3, 4, 5, 6, 7, 8, 9] rfl)).2 = none ∧
    (NewV7 1691000000123 (.full [0xa5, 1, 0xff, 3, 4, 5, 6, 7, 8, 9] rfl)).1.get 6 &&& 0x0f =
      at_ [0xa5, 1, 0xff, 3, 4, 5, 6, 7, 8, 9] 0 &&& 0x0f ∧
    (NewV7 1691000000123 (.full [0xa5, 1, 0xff, 3, 4, 5, 6, 7, 8, 9] rfl)).1.get 7 =
      at_ [0xa5, 1, 0xff, 3, 4, 5, 6, 7, 8, 9] 1 ∧
    (NewV7 1691000000123 (.full [0xa5, 1, 0xff, 3, 4, 5, 6, 7, 8, 9] rfl)).1.get 8 &&& 0x3f =
      at_ [0xa5, 1, 0xff, 3, 4, 5, 6, 7, 8, 9] 2 &&& 0x3f ∧
    slice (NewV7 1691000000123 (.full [0xa5, 1, 0xff, 3, 4, 5, 6, 7, 8, 9] rfl)).1.bytes 9 16 =
      slice [0xa5, 1, 0xff, 3, 4, 5, 6, 7, 8, 9] 3 10 :=
  ⟨rfl, C19_newv7_keeps_random 1691000000123 [0xa5, 1, 0xff, 3, 4, 5, 6, 7, 8, 9] rfl⟩

/-- C20: for every identifier `u`, `Parse(String(u))` returns `u` with a nil error. -/
theorem C20_string_parse (uuid : UUID) : Parse uuid.String = (uuid, none) := by
  obtain ⟨hlen, hh, hd⟩ := String_layout uuid
  obtain ⟨v, hp, hv⟩ := Parse36 uuid.String hlen hh
    (fun c hc => lower_isHex c (by rw [hd] at hc; exact encode_lower uuid.bytes c hc))
  rw [hd, pairBytes_encode] at hv
  rw [hp, UUID.ext_bytes hv]

end GoUuid
